import Mathlib

/-!
Verification development for the Users/Tasks CRUD service
(src/routes/users.js): a shallow embedding of the record store, the
consistency-maintenance operations and the query-string parsing, together
with proofs about the documented behaviour.

The persistence layer is modelled as an in-memory store: a list of User
records and a list of Task records.  Mongo primitives are embedded as
pure list transformations: findById is first match on the id field,
updateOne / updateMany map over matching records, deleteOne filters
the record out.  Record ids are store-generated, so operations that
insert a record take the generated id as an explicit argument; theorems
assume it is fresh and non-empty, as Mongo object ids are.
-/

set_option maxHeartbeats 1000000

/-- A User record: id, name, email and the denormalized list of pending
task ids, exactly the fields the routes read and write. -/
structure UserR where
  id : String
  name : String
  email : String
  pendingTasks : List String
deriving DecidableEq

/-- A Task record with the fields the routes read and write.  The
deadline is an uninterpreted string. -/
structure TaskR where
  id : String
  name : String
  description : String
  deadline : String
  completed : Bool
  assignedUser : String
  assignedUserName : String
deriving DecidableEq

/-- The document store: the users collection and the tasks collection. -/
structure Store where
  users : List UserR
  tasks : List TaskR
deriving DecidableEq

/-- A response: HTTP status plus the message of the response envelope.
A 204 response has no body; it is modelled with an empty message. -/
structure Resp where
  status : Nat
  message : String
deriving DecidableEq

/-- findById on the users collection: first record with the given id. -/
def findUser (s : Store) (uid : String) : Option UserR :=
  s.users.find? (fun u => u.id == uid)

/-- findById on the tasks collection: first record with the given id. -/
def findTask (s : Store) (tid : String) : Option TaskR :=
  s.tasks.find? (fun t => t.id == tid)

/-- The pendingTasks list of the user with the given id (empty when the
user does not exist); the view the theorems below are stated in. -/
def pendingOf (s : Store) (uid : String) : List String :=
  ((findUser s uid).map (fun u => u.pendingTasks)).getD []

/-- updateOne on the users collection with an id filter: rewrite the
matching record. -/
def updUsers (s : Store) (uid : String) (f : UserR → UserR) : Store :=
  { s with users := s.users.map (fun u => if u.id == uid then f u else u) }

/-- updateMany on the tasks collection: rewrite every matching record. -/
def updTasksWhere (s : Store) (p : TaskR → Bool) (f : TaskR → TaskR) : Store :=
  { s with tasks := s.tasks.map (fun t => if p t then f t else t) }

/-- Mongo pull of one value from an array field: remove every occurrence. -/
def pullList (l : List String) (x : String) : List String :=
  l.filter (fun y => y != x)

/-- Mongo addToSet on an array field: append the value unless present. -/
def addToSet (l : List String) (x : String) : List String :=
  if x ∈ l then l else l ++ [x]

/-- Array.from(new Set(xs)): de-duplication keeping the first occurrence
of every element, in order. -/
def dedupFirst : List String → List String
  | [] => []
  | x :: xs => x :: (dedupFirst xs).filter (fun y => y != x)

/-- normalizePendingTasksForUser: read the user, compute the
de-duplicated first-occurrence-order pending list, and write it back
only when it differs from the stored one.  Returns the new store and
whether a write was performed.  A missing user is a no-op. -/
def normalizePendingTasksForUser (s : Store) (uid : String) : Store × Bool :=
  match findUser s uid with
  | none => (s, false)
  | some u =>
    let normalized := dedupFirst u.pendingTasks
    if normalized = u.pendingTasks then (s, false)
    else (updUsers s uid (fun v => { v with pendingTasks := normalized }), true)

/-- The store after running the normalizer (the write-performed flag
dropped). -/
def normUser (s : Store) (uid : String) : Store :=
  (normalizePendingTasksForUser s uid).1

/-- emailContainsAt from the source: the email must contain an at sign. -/
def emailContainsAt (e : String) : Bool :=
  e.data.contains '@'

/-- The pendingTasks field of a request body: absent, present but not an
array, or an array of id strings (Array.isArray distinguishes the
last case from the other two). -/
inductive PendingField where
  | absent
  | notAnArray
  | arr (ids : List String)
deriving DecidableEq

/-- Body of a user create/update request. An empty name or email models
a missing (falsy) field, matching the truthiness checks in the source. -/
structure UserBody where
  name : String
  email : String
  pendingTasks : PendingField
deriving DecidableEq

/-- The completed field of a task request body: a boolean, a string, or
absent. -/
inductive CompletedField where
  | bool (b : Bool)
  | str (v : String)
  | absent
deriving DecidableEq

/-- The coercion the source applies to the completed field:
body.completed === true or body.completed === the string true. -/
def coerceCompleted : CompletedField → Bool
  | .bool b => b
  | .str v => v == "true"
  | .absent => false

/-- Body of a task create/update request.  assignedUser empty models a
missing (falsy) field; assignedUserName is an Option because the source
tests hasOwnProperty on it. -/
structure TaskBody where
  name : String
  description : String
  deadline : String
  completed : CompletedField
  assignedUser : String
  assignedUserName : Option String
deriving DecidableEq

/-- The JavaScript toLowerCase, for the ASCII letters that matter to the
comparison against the word unassigned. -/
def lowerChar (c : Char) : Char :=
  if 'A' ≤ c ∧ c ≤ 'Z' then Char.ofNat (c.toNat + 32) else c

/-- Lowercasing of a string, character by character. -/
def lowerString (s : String) : String :=
  String.mk (s.data.map lowerChar)

/-- Whether some other user record already holds this email (the unique
index on email; the schema lives in src/models, the spec records the
uniqueness).  On a user update the record itself is excluded. -/
def emailTaken (s : Store) (uid : String) (e : String) : Bool :=
  s.users.any (fun v => v.id != uid && v.email == e)

/-- POST /users: validate name/email, reject a non-empty supplied
pendingTasks, reject a duplicate email, insert the record with an empty
pending list, then normalize (a no-op for a fresh record). -/
def postUser (s : Store) (b : UserBody) (newId : String) : Resp × Store :=
  if b.name = "" || b.email = "" then
    (⟨400, "User must have a name and an email"⟩, s)
  else if !emailContainsAt b.email then
    (⟨400, "Invalid email format"⟩, s)
  else if (match b.pendingTasks with | .arr (_ :: _) => true | _ => false) then
    (⟨400, "Cannot set pendingTasks when creating a new user"⟩, s)
  else if s.users.any (fun v => v.email == b.email) then
    (⟨400, "A user with that email already exists"⟩, s)
  else
    let u : UserR := { id := newId, name := b.name, email := b.email, pendingTasks := [] }
    (⟨201, "User created"⟩, normUser { s with users := s.users ++ [u] } newId)

/-- One iteration of the previous-owner cleanup loop of PUT /users/:id:
for a referenced task that is not completed and is assigned to some
other user, pull the task id from that owner and normalize the owner. -/
def cleanupStep (uid : String) (s : Store) (t : TaskR) : Store :=
  if t.completed || t.assignedUser == "" || t.assignedUser == uid then s
  else
    normUser
      (updUsers s t.assignedUser (fun v => { v with pendingTasks := pullList v.pendingTasks t.id }))
      t.assignedUser

/-- The write sequence of PUT /users/:id after validation: save the
user record, pull each referenced task from its previous owner, point
the not-completed referenced tasks at this user and store them as the
new pending list, unassign the previously-pending tasks that were
dropped, refresh the denormalized user name on every task assigned to
this user, and normalize. -/
def putUserCascade (s : Store) (uid : String) (b : UserBody)
    (prevPending newPending : List String) : Store :=
  let s1 := updUsers s uid
    (fun v => { v with name := b.name, email := b.email, pendingTasks := newPending })
  let s3 :=
    if newPending = [] then s1
    else
      let tasks2 := s1.tasks.filter (fun t => newPending.contains t.id)
      let incomplete := (tasks2.filter (fun t => !t.completed)).map (fun t => t.id)
      let s2 := tasks2.foldl (cleanupStep uid) s1
      if incomplete = [] then
        updUsers s2 uid (fun v => { v with pendingTasks := [] })
      else
        updUsers
          (updTasksWhere s2 (fun t => incomplete.contains t.id)
            (fun t => { t with assignedUser := uid, assignedUserName := b.name }))
          uid (fun v => { v with pendingTasks := incomplete })
  let removed := prevPending.filter (fun x => !(newPending.contains x))
  let s4 :=
    if removed = [] then s3
    else
      updTasksWhere s3 (fun t => removed.contains t.id && !t.completed)
        (fun t => { t with assignedUser := "", assignedUserName := "unassigned" })
  let s5 := updTasksWhere s4 (fun t => t.assignedUser == uid)
    (fun t => { t with assignedUserName := b.name })
  normUser s5 uid

/-- PUT /users/:id: validate name/email, resolve the user, de-duplicate
the supplied pendingTasks (a non-array is treated as an empty list),
reject unknown task ids (404) and completed referenced tasks (400)
before any write, reject a duplicate email at save time, then run the
write cascade. -/
def putUser (s : Store) (uid : String) (b : UserBody) : Resp × Store :=
  if b.name = "" || b.email = "" then
    (⟨400, "User must have a name and an email"⟩, s)
  else if !emailContainsAt b.email then
    (⟨400, "Invalid email format"⟩, s)
  else
    match findUser s uid with
    | none => (⟨404, "User not found"⟩, s)
    | some user =>
      let newPending : List String :=
        match b.pendingTasks with
        | .arr l => dedupFirst l
        | _ => []
      let referenced := s.tasks.filter (fun t => newPending.contains t.id)
      let foundIds := referenced.map (fun t => t.id)
      let missing := newPending.filter (fun tid => !(foundIds.contains tid))
      if newPending ≠ [] ∧ missing ≠ [] then
        (⟨404, "One or more tasks not found"⟩, s)
      else if newPending ≠ [] ∧ referenced.any (fun t => t.completed) then
        (⟨400, "Cannot assign completed tasks as pending"⟩, s)
      else if emailTaken s uid b.email then
        (⟨400, "A user with that email already exists"⟩, s)
      else
        (⟨200, "User updated"⟩, putUserCascade s uid b user.pendingTasks newPending)

/-- DELETE /users/:id: unassign every task whose id is in the pending
list of the user, then remove the user record; 204 with no body. -/
def deleteUser (s : Store) (uid : String) : Resp × Store :=
  match findUser s uid with
  | none => (⟨404, "User not found"⟩, s)
  | some user =>
    let s1 :=
      if user.pendingTasks = [] then s
      else
        updTasksWhere s (fun t => user.pendingTasks.contains t.id)
          (fun t => { t with assignedUser := "", assignedUserName := "unassigned" })
    (⟨204, ""⟩, { s1 with users := s1.users.filter (fun v => v.id != uid) })

/-- The tail of POST /tasks once the assignee is resolved: insert the
task record, and when it is assigned and not completed add its id to
the pending set of the assignee and normalize. -/
def postTaskFinish (s : Store) (b : TaskBody) (newId au aname : String) : Resp × Store :=
  let t : TaskR :=
    { id := newId, name := b.name, description := b.description, deadline := b.deadline,
      completed := coerceCompleted b.completed, assignedUser := au, assignedUserName := aname }
  let s1 := { s with tasks := s.tasks ++ [t] }
  let s2 :=
    if au ≠ "" ∧ t.completed = false then
      normUser (updUsers s1 au (fun v => { v with pendingTasks := addToSet v.pendingTasks newId })) au
    else s1
  (⟨201, "Task created"⟩, s2)

/-- POST /tasks: validate name/deadline; when an assignedUser is given
it must resolve, and a supplied assignedUserName must equal the name of
the resolved user exactly; the stored assignedUserName falls back to
the word unassigned when empty. -/
def postTask (s : Store) (b : TaskBody) (newId : String) : Resp × Store :=
  if b.name = "" || b.deadline = "" then
    (⟨400, "Task must have a name and a deadline"⟩, s)
  else if b.assignedUser = "" then
    let aname :=
      match b.assignedUserName with
      | some n => if n = "" then "unassigned" else n
      | none => "unassigned"
    postTaskFinish s b newId "" aname
  else
    match findUser s b.assignedUser with
    | none => (⟨404, "Assigned user not found"⟩, s)
    | some udoc =>
      let nameOk :=
        match b.assignedUserName with
        | some n => n == udoc.name
        | none => true
      if !nameOk then (⟨400, "assignedUserName does not match user record"⟩, s)
      else
        postTaskFinish s b newId b.assignedUser
          (if udoc.name = "" then "unassigned" else udoc.name)

/-- The assignee resolution of PUT /tasks/:id: an empty assignedUser
unassigns; otherwise the user must exist, and a supplied
assignedUserName is rejected when its lowercase form is not the word
unassigned and it differs from the name of the resolved user. -/
def resolveTaskAssignee (s : Store) (b : TaskBody) : Except Resp (String × String) :=
  if b.assignedUser = "" then .ok ("", "unassigned")
  else
    match findUser s b.assignedUser with
    | none => .error ⟨404, "Assigned user not found"⟩
    | some udoc =>
      match b.assignedUserName with
      | some n =>
        if lowerString n ≠ "unassigned" ∧ n ≠ udoc.name then
          .error ⟨400, "assignedUserName does not match user record"⟩
        else .ok (b.assignedUser, udoc.name)
      | none => .ok (b.assignedUser, udoc.name)

/-- PUT /tasks/:id: validate name/deadline, reject a missing task and a
completed task, resolve the assignee, save the task, pull the id from a
previous assignee that changed, and pull (when now completed) or add
(when not) the id at the current assignee, normalizing each touched
user. -/
def putTask (s : Store) (tid : String) (b : TaskBody) : Resp × Store :=
  if b.name = "" || b.deadline = "" then
    (⟨400, "Task must have a name and a deadline"⟩, s)
  else
    match findTask s tid with
    | none => (⟨404, "Task not found"⟩, s)
    | some task =>
      if task.completed then (⟨400, "Cannot modify a completed task"⟩, s)
      else
        match resolveTaskAssignee s b with
        | .error r => (r, s)
        | .ok (au, aname) =>
          let newCompleted := coerceCompleted b.completed
          let prevAssigned := task.assignedUser
          let s1 := updTasksWhere s (fun t => t.id == tid)
            (fun t =>
              { t with
                name := b.name, description := b.description,
                deadline := b.deadline, completed := newCompleted,
                assignedUser := au, assignedUserName := aname })
          let s2 :=
            if prevAssigned ≠ "" ∧ prevAssigned ≠ au then
              normUser
                (updUsers s1 prevAssigned
                  (fun v => { v with pendingTasks := pullList v.pendingTasks tid }))
                prevAssigned
            else s1
          let s3 :=
            if au ≠ "" then
              let sA :=
                if newCompleted then
                  updUsers s2 au (fun v => { v with pendingTasks := pullList v.pendingTasks tid })
                else
                  updUsers s2 au (fun v => { v with pendingTasks := addToSet v.pendingTasks tid })
              normUser sA au
            else s2
          (⟨200, "Task updated"⟩, s3)

/-- DELETE /tasks/:id: when the task is assigned pull its id from the
pending set of the assignee and normalize, then remove the task
record; 204 with no body. -/
def deleteTask (s : Store) (tid : String) : Resp × Store :=
  match findTask s tid with
  | none => (⟨404, "Task not found"⟩, s)
  | some task =>
    let s1 :=
      if task.assignedUser = "" then s
      else
        normUser
          (updUsers s task.assignedUser
            (fun v => { v with pendingTasks := pullList v.pendingTasks tid }))
          task.assignedUser
    (⟨204, ""⟩, { s1 with tasks := s1.tasks.filter (fun t => t.id != tid) })

/-- The documented mutating operations, as one type so that invariant
preservation can be stated once.  Create operations carry the
store-generated id of the new record. -/
inductive Op where
  | userCreate (b : UserBody) (newId : String)
  | userUpdate (uid : String) (b : UserBody)
  | userDelete (uid : String)
  | taskCreate (b : TaskBody) (newId : String)
  | taskUpdate (tid : String) (b : TaskBody)
  | taskDelete (tid : String)
deriving DecidableEq

/-- Dispatch of a mutating operation. -/
def applyOp (s : Store) : Op → Resp × Store
  | .userCreate b newId => postUser s b newId
  | .userUpdate uid b => putUser s uid b
  | .userDelete uid => deleteUser s uid
  | .taskCreate b newId => postTask s b newId
  | .taskUpdate tid b => putTask s tid b
  | .taskDelete tid => deleteTask s tid

/-- For create operations the store-generated id is fresh and
non-empty; no assumption for the other operations. -/
def freshOk (s : Store) : Op → Prop
  | .userCreate _ newId => newId ≠ "" ∧ ∀ u ∈ s.users, u.id ≠ newId
  | .taskCreate _ newId => newId ≠ "" ∧ ∀ t ∈ s.tasks, t.id ≠ newId
  | _ => True

instance (s : Store) (op : Op) : Decidable (freshOk s op) := by
  cases op <;> simp [freshOk] <;> infer_instance

/-- JSON whitespace. -/
def jsonWs (c : Char) : Bool :=
  c == ' ' || c == '\t' || c == '\n' || c == '\r'

/-- Drop leading JSON whitespace. -/
def skipWs : List Char → List Char
  | [] => []
  | c :: cs => if jsonWs c then skipWs cs else c :: cs

/-- Hexadecimal digit, for string escapes. -/
def isHexDigit (c : Char) : Bool :=
  c.isDigit || ('a' ≤ c && c ≤ 'f') || ('A' ≤ c && c ≤ 'F')

/-- Consume the rest of a JSON string after the opening quote; returns
the remaining input.  Fueled for termination; one unit per character. -/
def jsonStringRest : Nat → List Char → Option (List Char)
  | 0, _ => none
  | _, [] => none
  | Nat.succ fuel, c :: cs =>
    if c == '"' then some cs
    else if c == '\\' then
      match cs with
      | [] => none
      | e :: cs2 =>
        if e == 'u' then
          match cs2 with
          | a :: b :: c2 :: d :: cs3 =>
            if isHexDigit a && isHexDigit b && isHexDigit c2 && isHexDigit d then
              jsonStringRest fuel cs3
            else none
          | _ => none
        else if e == '"' || e == '\\' || e == '/' || e == 'b' || e == 'f'
             || e == 'n' || e == 'r' || e == 't' then
          jsonStringRest fuel cs2
        else none
    else if c.toNat < 32 then none
    else jsonStringRest fuel cs

/-- Consume an expected literal tail (rue, alse, ull). -/
def stripLit : List Char → List Char → Option (List Char)
  | [], l => some l
  | _ :: _, [] => none
  | p :: ps, c :: cs => if c == p then stripLit ps cs else none

/-- Consume an optional JSON fraction part. -/
def jsonFrac : List Char → Option (List Char)
  | '.' :: r =>
    match r.span Char.isDigit with
    | ([], _) => none
    | (_ :: _, rest) => some rest
  | l => some l

/-- Consume an optional JSON exponent part. -/
def jsonExp : List Char → Option (List Char)
  | [] => some []
  | c :: r =>
    if c == 'e' || c == 'E' then
      let r1 := match r with
        | sgn :: r2 => if sgn == '+' || sgn == '-' then r2 else sgn :: r2
        | [] => []
      match r1.span Char.isDigit with
      | ([], _) => none
      | (_ :: _, rest) => some rest
    else some (c :: r)

/-- Consume a JSON number (sign, integer part without leading zeros,
optional fraction and exponent). -/
def jsonNumber (l : List Char) : Option (List Char) :=
  let l1 := match l with | '-' :: r => r | _ => l
  match l1 with
  | [] => none
  | c :: r =>
    if c == '0' then
      match jsonFrac r with
      | none => none
      | some r2 => jsonExp r2
    else if c.isDigit then
      match jsonFrac (r.dropWhile Char.isDigit) with
      | none => none
      | some r2 => jsonExp r2
    else none

/-- The grammar position of the recursive descent: a value, the members
of an object, or the elements of an array (the flag allows the empty
object or array). -/
inductive JMode where
  | value
  | members (allowEmpty : Bool)
  | elements (allowEmpty : Bool)
deriving DecidableEq

/-- The recursive descent over a JSON document, fueled for structural
termination: consume one value / the members of an object / the
elements of an array at the head of the input and return the rest. -/
def jsonRun : Nat → JMode → List Char → Option (List Char)
  | 0, _, _ => none
  | Nat.succ fuel, .value, l =>
    match l with
    | [] => none
    | c :: cs =>
      if c == '{' then jsonRun fuel (.members true) (skipWs cs)
      else if c == '[' then jsonRun fuel (.elements true) (skipWs cs)
      else if c == '"' then jsonStringRest (cs.length + 1) cs
      else if c == 't' then stripLit ['r', 'u', 'e'] cs
      else if c == 'f' then stripLit ['a', 'l', 's', 'e'] cs
      else if c == 'n' then stripLit ['u', 'l', 'l'] cs
      else jsonNumber l
  | Nat.succ fuel, .members allowEmpty, l =>
    match l with
    | '}' :: cs => if allowEmpty then some cs else none
    | '"' :: cs =>
      match jsonStringRest (cs.length + 1) cs with
      | none => none
      | some r1 =>
        match skipWs r1 with
        | ':' :: r2 =>
          match jsonRun fuel .value (skipWs r2) with
          | none => none
          | some r3 =>
            match skipWs r3 with
            | ',' :: r4 => jsonRun fuel (.members false) (skipWs r4)
            | '}' :: r4 => some r4
            | _ => none
        | _ => none
    | _ => none
  | Nat.succ fuel, .elements allowEmpty, l =>
    match l with
    | ']' :: cs => if allowEmpty then some cs else none
    | _ =>
      match jsonRun fuel .value l with
      | none => none
      | some r1 =>
        match skipWs r1 with
        | ',' :: r2 => jsonRun fuel (.elements false) (skipWs r2)
        | ']' :: r2 => some r2
        | _ => none

/-- Whether JSON.parse succeeds on the string: one JSON value followed
only by whitespace. -/
def jsonValid (s : String) : Bool :=
  match jsonRun (2 * s.toList.length + 2) .value (skipWs s.toList) with
  | some rest => (skipWs rest).isEmpty
  | none => false

/-- Result of parseJSONParam: the parameter is absent (or falsy), is
present but malformed (the distinguished parse-error marker), or
decodes to a value (kept as its raw text). -/
inductive ParseResult where
  | missing
  | perror
  | ok (raw : String)
deriving DecidableEq

/-- parseJSONParam from the source: a missing or empty (falsy) value
yields no constraint; a decode failure yields the parse-error marker
and never throws (the function is total). -/
def parseJSONParam (p : Option String) : ParseResult :=
  match p with
  | none => .missing
  | some v => if v = "" then .missing else if jsonValid v then .ok v else .perror

/-- GET /users, projected to what the query-parameter contract
determines: the response, and whether the store was queried.  The
where, sort and select parameters are checked in that order and the
first parse error answers 400 before any store access. -/
def getUsers (whereQ sortQ selectQ : Option String) : Resp × Bool :=
  if parseJSONParam whereQ = .perror then (⟨400, "Invalid JSON in where parameter"⟩, false)
  else if parseJSONParam sortQ = .perror then (⟨400, "Invalid JSON in sort parameter"⟩, false)
  else if parseJSONParam selectQ = .perror then (⟨400, "Invalid JSON in select parameter"⟩, false)
  else (⟨200, "OK"⟩, true)

/-! ## Basic lemmas about de-duplication and the array primitives -/

theorem mem_dedupFirst {a : String} : ∀ {l : List String}, a ∈ dedupFirst l ↔ a ∈ l := by
  intro l
  induction l with
  | nil => simp [dedupFirst]
  | cons x xs ih =>
    simp only [dedupFirst, List.mem_cons, List.mem_filter, ih, bne_iff_ne]
    by_cases h : a = x <;> simp [h]

theorem dedupFirst_nodup : ∀ l : List String, (dedupFirst l).Nodup := by
  intro l
  induction l with
  | nil => simp [dedupFirst]
  | cons x xs ih =>
    simp only [dedupFirst, List.nodup_cons]
    refine ⟨fun hmem => ?_, ih.filter _⟩
    have := List.of_mem_filter hmem
    simp at this

theorem dedupFirst_eq_self_of_nodup : ∀ {l : List String}, l.Nodup → dedupFirst l = l := by
  intro l
  induction l with
  | nil => intro _; rfl
  | cons x xs ih =>
    intro h
    rcases List.nodup_cons.mp h with ⟨hx, hxs⟩
    simp only [dedupFirst, ih hxs]
    congr 1
    exact List.filter_eq_self.mpr fun a ha => bne_iff_ne.mpr (fun e => hx (e ▸ ha))

theorem nodup_of_dedupFirst_eq_self {l : List String} (h : dedupFirst l = l) : l.Nodup :=
  h ▸ dedupFirst_nodup l

theorem dedupFirst_idem (l : List String) : dedupFirst (dedupFirst l) = dedupFirst l :=
  dedupFirst_eq_self_of_nodup (dedupFirst_nodup l)

theorem mem_pullList {a x : String} {l : List String} :
    a ∈ pullList l x ↔ a ∈ l ∧ a ≠ x := by
  simp [pullList, List.mem_filter]

theorem pullList_nodup {l : List String} (h : l.Nodup) (x : String) :
    (pullList l x).Nodup :=
  h.filter _

theorem mem_addToSet {a x : String} {l : List String} :
    a ∈ addToSet l x ↔ a ∈ l ∨ a = x := by
  unfold addToSet
  by_cases h : x ∈ l
  · simp only [if_pos h]
    constructor
    · exact Or.inl
    · rintro (h1 | rfl) <;> [exact h1; exact h]
  · simp only [if_neg h, List.mem_append, List.mem_singleton]

theorem addToSet_nodup {l : List String} (h : l.Nodup) (x : String) :
    (addToSet l x).Nodup := by
  unfold addToSet
  by_cases hx : x ∈ l
  · simpa [hx] using h
  · simp only [if_neg hx]
    simpa [List.nodup_append] using ⟨h, hx⟩

/-! ## Lemmas about the store primitives -/

/-- The ids of the users collection, in order. -/
def userIds (s : Store) : List String := s.users.map (fun u => u.id)

/-- The ids of the tasks collection, in order. -/
def taskIds (s : Store) : List String := s.tasks.map (fun t => t.id)

theorem find?_map_pred {α : Type} (g : α → α) (p : α → Bool)
    (hp : ∀ a, p (g a) = p a) :
    ∀ l : List α, (l.map g).find? p = (l.find? p).map g := by
  intro l
  induction l with
  | nil => rfl
  | cons a l ih =>
    simp only [List.map_cons, List.find?_cons, hp a]
    cases h : p a <;> simp [h, ih]

theorem findUser_some_id {s : Store} {uid : String} {u : UserR}
    (h : findUser s uid = some u) : u.id = uid := by
  have := List.find?_some h
  simpa using this

theorem findUser_some_mem {s : Store} {uid : String} {u : UserR}
    (h : findUser s uid = some u) : u ∈ s.users :=
  List.mem_of_find?_eq_some h

theorem findTask_some_id {s : Store} {tid : String} {t : TaskR}
    (h : findTask s tid = some t) : t.id = tid := by
  have := List.find?_some h
  simpa using this

theorem findTask_some_mem {s : Store} {tid : String} {t : TaskR}
    (h : findTask s tid = some t) : t ∈ s.tasks :=
  List.mem_of_find?_eq_some h

theorem updUsers_tasks (s : Store) (uid : String) (f : UserR → UserR) :
    (updUsers s uid f).tasks = s.tasks := rfl

theorem updTasksWhere_users (s : Store) (p : TaskR → Bool) (f : TaskR → TaskR) :
    (updTasksWhere s p f).users = s.users := rfl

theorem findUser_updUsers (s : Store) (uid vid : String) (f : UserR → UserR)
    (hf : ∀ u, (f u).id = u.id) :
    findUser (updUsers s uid f) vid
      = (findUser s vid).map (fun u => if u.id == uid then f u else u) := by
  unfold findUser updUsers
  exact find?_map_pred _ _ (fun u => by by_cases h : u.id == uid <;> simp [h, hf]) s.users

theorem userIds_updUsers (s : Store) (uid : String) (f : UserR → UserR)
    (hf : ∀ u, (f u).id = u.id) :
    userIds (updUsers s uid f) = userIds s := by
  unfold userIds updUsers
  simp only [List.map_map]
  exact List.map_congr_left fun u _ => by
    by_cases h : u.id = uid <;> simp [h, hf]

theorem taskIds_updTasksWhere (s : Store) (p : TaskR → Bool) (f : TaskR → TaskR)
    (hf : ∀ t, (f t).id = t.id) :
    taskIds (updTasksWhere s p f) = taskIds s := by
  unfold taskIds updTasksWhere
  simp only [List.map_map]
  exact List.map_congr_left fun t _ => by by_cases h : p t <;> simp [h, hf]

theorem findTask_updTasksWhere (s : Store) (tid : String) (p : TaskR → Bool) (f : TaskR → TaskR)
    (hf : ∀ t, (f t).id = t.id) :
    findTask (updTasksWhere s p f) tid
      = (findTask s tid).map (fun t => if p t then f t else t) := by
  unfold findTask updTasksWhere
  exact find?_map_pred _ _ (fun t => by by_cases h : p t <;> simp [h, hf]) s.tasks

theorem pendingOf_updUsers (s : Store) (uid vid : String) (f : UserR → UserR)
    (hf : ∀ u, (f u).id = u.id) :
    pendingOf (updUsers s uid f) vid
      = if vid = uid then ((findUser s vid).map (fun u => (f u).pendingTasks)).getD []
        else pendingOf s vid := by
  unfold pendingOf
  rw [findUser_updUsers s uid vid f hf]
  cases hfind : findUser s vid with
  | none => by_cases h : vid = uid <;> simp [h]
  | some u =>
    have hu : u.id = vid := findUser_some_id hfind
    by_cases h : vid = uid
    · subst h; simp [hu]
    · have hne : ¬ u.id = uid := by rw [hu]; exact h
      simp [hne, h]

/-! ## Lemmas about the normalizer -/

theorem normUser_of_not_found {s : Store} {uid : String}
    (h : findUser s uid = none) : normUser s uid = s := by
  unfold normUser normalizePendingTasksForUser
  rw [h]

theorem normUser_of_nodup {s : Store} {uid : String} {u : UserR}
    (h : findUser s uid = some u) (hn : u.pendingTasks.Nodup) : normUser s uid = s := by
  unfold normUser normalizePendingTasksForUser
  rw [h]
  simp only [dedupFirst_eq_self_of_nodup hn, if_pos]

theorem normUser_tasks (s : Store) (uid : String) : (normUser s uid).tasks = s.tasks := by
  unfold normUser normalizePendingTasksForUser
  cases findUser s uid with
  | none => rfl
  | some u =>
    dsimp only
    split
    · rfl
    · rfl

theorem findUser_normUser (s : Store) (uid vid : String) :
    findUser (normUser s uid) vid
      = (findUser s vid).map
          (fun v => if v.id = uid then { v with pendingTasks := dedupFirst v.pendingTasks } else v) := by
  unfold normUser normalizePendingTasksForUser
  cases hu : findUser s uid with
  | none =>
    dsimp only
    cases hv : findUser s vid with
    | none => simp
    | some v =>
      have hvid := findUser_some_id hv
      have hne : ¬ v.id = uid := by
        rw [hvid]; intro e; rw [e, hu] at hv; cases hv
      simp [hne]
  | some u =>
    dsimp only
    by_cases hsame : dedupFirst u.pendingTasks = u.pendingTasks
    · rw [if_pos hsame]
      dsimp only
      cases hv : findUser s vid with
      | none => simp
      | some v =>
        have hvid := findUser_some_id hv
        by_cases hvu : v.id = uid
        · have hvequid : vid = uid := hvid ▸ hvu
          rw [hvequid, hu] at hv
          injection hv with hv
          subst hv
          simp [hvu, hsame]
          rw [← hvu]
        · simp [hvu]
    · rw [if_neg hsame]
      dsimp only
      rw [findUser_updUsers s uid vid
        (fun v => { v with pendingTasks := dedupFirst u.pendingTasks }) (fun v => rfl)]
      cases hv : findUser s vid with
      | none => simp
      | some v =>
        have hvid := findUser_some_id hv
        by_cases hvu : v.id = uid
        · have hvequid : vid = uid := hvid ▸ hvu
          rw [hvequid, hu] at hv
          injection hv with hv
          subst hv
          simp [hvu]
        · simp [hvu]

theorem pendingOf_normUser (s : Store) (uid vid : String) :
    pendingOf (normUser s uid) vid
      = if vid = uid then dedupFirst (pendingOf s vid) else pendingOf s vid := by
  unfold pendingOf
  rw [findUser_normUser]
  cases hv : findUser s vid with
  | none => by_cases h : vid = uid <;> simp [h, dedupFirst]
  | some v =>
    have hvid := findUser_some_id hv
    by_cases h : vid = uid
    · subst h; simp [hvid]
    · have hne : ¬ v.id = uid := by rw [hvid]; exact h
      simp [hne, h]

theorem userIds_normUser (s : Store) (uid : String) :
    userIds (normUser s uid) = userIds s := by
  unfold normUser normalizePendingTasksForUser
  cases findUser s uid with
  | none => rfl
  | some u =>
    dsimp only
    split
    · rfl
    · exact userIds_updUsers _ _ _ (fun v => rfl)

theorem find?_key_self {α : Type} (key : α → String) :
    ∀ {l : List α}, (l.map key).Nodup → ∀ {a : α}, a ∈ l →
      l.find? (fun x => key x == key a) = some a := by
  intro l
  induction l with
  | nil => intro _ a ha; cases ha
  | cons b l ih =>
    intro hnd a ha
    have hnd' := hnd
    rw [List.map_cons, List.nodup_cons] at hnd'
    rcases List.mem_cons.mp ha with rfl | ha'
    · simp [List.find?_cons]
    · have hne : (key b == key a) = false := by
        have hmem : key a ∈ l.map key := List.mem_map_of_mem _ ha'
        simp only [beq_eq_false_iff_ne, ne_eq]
        intro e
        exact hnd'.1 (e ▸ hmem)
      rw [List.find?_cons, hne]
      exact ih hnd'.2 ha'

theorem findUser_of_mem {s : Store} (hnd : (userIds s).Nodup) {u : UserR}
    (hu : u ∈ s.users) : findUser s u.id = some u := by
  unfold userIds at hnd
  exact find?_key_self (fun v => v.id) hnd hu

theorem findTask_of_mem {s : Store} (hnd : (taskIds s).Nodup) {t : TaskR}
    (ht : t ∈ s.tasks) : findTask s t.id = some t := by
  unfold taskIds at hnd
  exact find?_key_self (fun v => v.id) hnd ht

theorem mem_userIds {s : Store} {uid : String} :
    uid ∈ userIds s ↔ ∃ u ∈ s.users, u.id = uid := by
  simp [userIds]

theorem mem_taskIds {s : Store} {tid : String} :
    tid ∈ taskIds s ↔ ∃ t ∈ s.tasks, t.id = tid := by
  simp [taskIds]

/-- Claim C6: for every existing User the normalizer leaves the stored
pendingTasks equal to its de-duplicated first-occurrence-order version,
writes exactly when that version differs from the stored list, performs
no write when the stored list is already de-duplicated, and a second
run right after the first performs no write and leaves the store
unchanged. -/
theorem C6_normalizer_dedups_writes_iff_changed_and_idempotent
    (s : Store) (uid : String) (u : UserR) (hfind : findUser s uid = some u) :
    pendingOf (normalizePendingTasksForUser s uid).1 uid = dedupFirst u.pendingTasks ∧
    ((normalizePendingTasksForUser s uid).2 = true ↔ dedupFirst u.pendingTasks ≠ u.pendingTasks) ∧
    (u.pendingTasks.Nodup → normalizePendingTasksForUser s uid = (s, false)) ∧
    normalizePendingTasksForUser (normalizePendingTasksForUser s uid).1 uid
      = ((normalizePendingTasksForUser s uid).1, false) := by
  have hpend : pendingOf s uid = u.pendingTasks := by
    unfold pendingOf
    rw [hfind]
    rfl
  refine ⟨?_, ?_, ?_, ?_⟩
  · have := pendingOf_normUser s uid uid
    rw [if_pos rfl, hpend] at this
    exact this
  · unfold normalizePendingTasksForUser
    rw [hfind]
    dsimp only
    by_cases hsame : dedupFirst u.pendingTasks = u.pendingTasks
    · simp [hsame]
    · simp [hsame]
  · intro hn
    unfold normalizePendingTasksForUser
    rw [hfind]
    simp [dedupFirst_eq_self_of_nodup hn]
  · have hfind2 : findUser (normUser s uid) uid
        = some { u with pendingTasks := dedupFirst u.pendingTasks } := by
      rw [findUser_normUser, hfind]
      have : u.id = uid := findUser_some_id hfind
      simp [this]
    show normalizePendingTasksForUser (normUser s uid) uid = (normUser s uid, false)
    unfold normalizePendingTasksForUser
    rw [hfind2]
    simp [dedupFirst_idem]

/-- Claim C9 (amended): parseJSONParam answers every present, non-empty,
malformed where/sort/select value with the distinguished parse-error
marker without throwing (it is a total function), and the list endpoint
answers 400 naming the first offending parameter, in the order where,
sort, select, without querying the store.  A present but empty value is
falsy in the source and is treated as absent, not as a parse error. -/
theorem C9_invalid_json_params_answer_400_in_order (whereQ sortQ selectQ : Option String) :
    (∀ v : String, v ≠ "" → jsonValid v = false → parseJSONParam (some v) = .perror) ∧
    (∀ wv : String, whereQ = some wv → wv ≠ "" → jsonValid wv = false →
      getUsers whereQ sortQ selectQ = (⟨400, "Invalid JSON in where parameter"⟩, false)) ∧
    (parseJSONParam whereQ ≠ .perror →
      ∀ sv : String, sortQ = some sv → sv ≠ "" → jsonValid sv = false →
        getUsers whereQ sortQ selectQ = (⟨400, "Invalid JSON in sort parameter"⟩, false)) ∧
    (parseJSONParam whereQ ≠ .perror → parseJSONParam sortQ ≠ .perror →
      ∀ cv : String, selectQ = some cv → cv ≠ "" → jsonValid cv = false →
        getUsers whereQ sortQ selectQ = (⟨400, "Invalid JSON in select parameter"⟩, false)) := by
  refine ⟨?_, ?_, ?_, ?_⟩
  · intro v hne hbad
    simp [parseJSONParam, hne, hbad]
  · rintro wv rfl hne hbad
    have hw : parseJSONParam (some wv) = .perror := by simp [parseJSONParam, hne, hbad]
    simp [getUsers, hw]
  · rintro hw sv rfl hne hbad
    have hs : parseJSONParam (some sv) = .perror := by simp [parseJSONParam, hne, hbad]
    simp [getUsers, hw, hs]
  · rintro hw hs cv rfl hne hbad
    have hc : parseJSONParam (some cv) = .perror := by simp [parseJSONParam, hne, hbad]
    simp [getUsers, hw, hs, hc]

/-- Witness for C9: a malformed where parameter is answered with the 400
response naming it, without querying the store. -/
theorem C9_invalid_json_params_answer_400_in_order_witness :
    getUsers (some "\x7b") (some "[1]") none = (⟨400, "Invalid JSON in where parameter"⟩, false) :=
  (C9_invalid_json_params_answer_400_in_order (some "\x7b") (some "[1]") none).2.1
    "\x7b" rfl (by decide) (by decide)

/-- Counterexample to C9 as stated: the empty string is a present value
on which JSON.parse fails, yet the source treats a falsy parameter as
absent, so the request is answered 200 and the store is queried rather
than being rejected with a 400. -/
theorem C9_counterexample_empty_string_value :
    jsonValid "" = false ∧ getUsers (some "") none none = (⟨200, "OK"⟩, true) := by
  constructor
  · decide
  · decide

/-! ## User update validation behaviour -/

/-- Claim C2 (amended): when the body passes the field validation, the
user exists, and every id in the de-duplicated supplied pendingTasks
resolves to an existing Task, a supplied list containing the id of a
completed Task makes the update fail with the 400 response and leaves
the whole store unchanged: no write to the User occurs.  (When some id
does not resolve, the 404 missing-tasks answer wins instead.) -/
theorem C2_completed_pending_rejected_400_no_write
    (s : Store) (uid : String) (u : UserR) (b : UserBody) (l : List String)
    (hname : b.name ≠ "")
    (hat : emailContainsAt b.email = true)
    (hfind : findUser s uid = some u)
    (hpf : b.pendingTasks = .arr l)
    (hall : ∀ tid ∈ dedupFirst l, ∃ t ∈ s.tasks, t.id = tid)
    (hcomp : ∃ tid ∈ dedupFirst l, ∃ t ∈ s.tasks, t.id = tid ∧ t.completed = true) :
    putUser s uid b = (⟨400, "Cannot assign completed tasks as pending"⟩, s) := by
  have hemail : b.email ≠ "" := by
    intro e
    rw [e] at hat
    exact absurd hat (by decide)
  unfold putUser
  rw [if_neg (by simp [hname, hemail]), if_neg (by simp [hat]), hfind]
  dsimp only
  rw [hpf]
  dsimp only
  have hmissing :
      (dedupFirst l).filter
        (fun tid => !(((s.tasks.filter (fun t => (dedupFirst l).contains t.id)).map
          (fun t => t.id)).contains tid)) = [] := by
    rw [List.filter_eq_nil_iff]
    intro tid htid
    rcases hall tid htid with ⟨t, htmem, hid⟩
    simp
    exact ⟨t, htmem, by rw [hid]; exact htid, hid⟩
  rcases hcomp with ⟨tid, htid, t, htmem, hid, hcompl⟩
  have hne : dedupFirst l ≠ [] := by
    intro e
    rw [e] at htid
    cases htid
  have hany : (s.tasks.filter (fun t => (dedupFirst l).contains t.id)).any
      (fun t => t.completed) = true := by
    rw [List.any_eq_true]
    refine ⟨t, ?_, hcompl⟩
    rw [List.mem_filter]
    exact ⟨htmem, by simp [hid, htid]⟩
  rw [if_neg (fun h => h.2 hmissing), if_pos ⟨hne, hany⟩]

/-- Witness for C2: a concrete store with one user and one completed
task, and an update request listing that task. -/
theorem C2_completed_pending_rejected_400_no_write_witness :
    putUser ⟨[⟨"u1", "Alice", "a@x", []⟩], [⟨"t1", "T", "", "d", true, "", "unassigned"⟩]⟩
        "u1" ⟨"Alice", "a@x", PendingField.arr ["t1"]⟩
      = (⟨400, "Cannot assign completed tasks as pending"⟩,
         ⟨[⟨"u1", "Alice", "a@x", []⟩], [⟨"t1", "T", "", "d", true, "", "unassigned"⟩]⟩) :=
  C2_completed_pending_rejected_400_no_write _ _ ⟨"u1", "Alice", "a@x", []⟩ _ ["t1"]
    (by decide) (by decide) (by decide) rfl (by decide) (by decide)

/-- Counterexample to C2 as stated: when the supplied list contains both
the id of an existing completed Task and an unknown id, the update
fails with 404 One or more tasks not found, not with the 400 response
the claim requires. -/
theorem C2_counterexample_missing_id_wins_404 :
    (∃ tid ∈ dedupFirst ["t1", "zz"],
      ∃ t ∈ (Store.mk [⟨"u1", "Alice", "a@x", []⟩]
        [⟨"t1", "T", "", "d", true, "", "unassigned"⟩]).tasks, t.id = tid ∧ t.completed = true) ∧
    (putUser ⟨[⟨"u1", "Alice", "a@x", []⟩], [⟨"t1", "T", "", "d", true, "", "unassigned"⟩]⟩
        "u1" ⟨"Alice", "a@x", PendingField.arr ["t1", "zz"]⟩).1
      = ⟨404, "One or more tasks not found"⟩ := by
  constructor
  · decide
  · decide

/-- Counterexample to C7 as stated: a referenced completed Task is not
silently dropped; the whole update is rejected with 400 and nothing is
written (the claim predicts a successful update whose resulting pending
set is the not-completed subset). -/
theorem C7_counterexample_completed_reference_is_an_error :
    putUser ⟨[⟨"u1", "Alice", "a@x", []⟩], [⟨"t2", "T", "", "d", true, "", "unassigned"⟩]⟩
        "u1" ⟨"Alice", "a@x", PendingField.arr ["t2"]⟩
      = (⟨400, "Cannot assign completed tasks as pending"⟩,
         ⟨[⟨"u1", "Alice", "a@x", []⟩], [⟨"t2", "T", "", "d", true, "", "unassigned"⟩]⟩) := by
  decide

/-! ## Task update assignedUserName matching -/

/-- Claim C8 (amended): on a task update with a resolving assignedUser
and a supplied assignedUserName, the update is rejected with the 400
mismatch response exactly when the lowercase form of the supplied name
is not the word unassigned and the supplied name differs from the name
of the resolved user; the bypass is case-insensitive, so any
capitalization of the word unassigned bypasses the check. -/
theorem C8_assignedUserName_mismatch_iff
    (s : Store) (tid : String) (t : TaskR) (b : TaskBody) (u : UserR) (n : String)
    (hname : b.name ≠ "") (hdl : b.deadline ≠ "")
    (hfind : findTask s tid = some t) (hnc : t.completed = false)
    (hau : b.assignedUser ≠ "") (huser : findUser s b.assignedUser = some u)
    (hn : b.assignedUserName = some n) :
    (putTask s tid b).1 = ⟨400, "assignedUserName does not match user record"⟩
      ↔ (lowerString n ≠ "unassigned" ∧ n ≠ u.name) := by
  unfold putTask
  rw [if_neg (by simp [hname, hdl]), hfind]
  dsimp only
  rw [hnc]
  simp only [Bool.false_eq_true, if_false]
  unfold resolveTaskAssignee
  rw [if_neg hau, huser]
  dsimp only
  rw [hn]
  dsimp only
  by_cases hcond : lowerString n ≠ "unassigned" ∧ n ≠ u.name
  · rw [if_pos hcond]
    simpa using hcond
  · rw [if_neg hcond]
    dsimp only
    constructor
    · intro h
      cases h
    · intro h
      exact absurd h hcond

/-- Witness for C8: a supplied name that neither spells unassigned nor
matches the user record is rejected. -/
theorem C8_assignedUserName_mismatch_iff_witness :
    ((putTask ⟨[⟨"u2", "Bob", "b@x", []⟩], [⟨"t1", "T", "", "d", false, "", "unassigned"⟩]⟩
        "t1" ⟨"T", "", "d", CompletedField.bool false, "u2", some "Eve"⟩).1
      = ⟨400, "assignedUserName does not match user record"⟩)
      ↔ (lowerString "Eve" ≠ "unassigned" ∧ "Eve" ≠ "Bob") :=
  C8_assignedUserName_mismatch_iff _ _ ⟨"t1", "T", "", "d", false, "", "unassigned"⟩ _
    ⟨"u2", "Bob", "b@x", []⟩ "Eve"
    (by decide) (by decide) (by decide) rfl (by decide) (by decide) rfl

/-- Counterexample to C8 as stated: the string UNASSIGNED is not the
literal lowercase word unassigned and differs from the name of the
resolved user, so the claim requires a rejection; the source lowercases
before comparing and accepts the update with 200. -/
theorem C8_counterexample_uppercase_unassigned_bypasses :
    lowerString "UNASSIGNED" = "unassigned" ∧
    ("UNASSIGNED" : String) ≠ "unassigned" ∧
    ("UNASSIGNED" : String) ≠ "Bob" ∧
    (putTask ⟨[⟨"u2", "Bob", "b@x", []⟩], [⟨"t1", "T", "", "d", false, "", "unassigned"⟩]⟩
        "t1" ⟨"T", "", "d", CompletedField.bool false, "u2", some "UNASSIGNED"⟩).1
      = ⟨200, "Task updated"⟩ := by
  refine ⟨by decide, by decide, by decide, by decide⟩

/-- Witness for C6: a user stored with a duplicated pending list. -/
theorem C6_normalizer_dedups_writes_iff_changed_and_idempotent_witness :
    pendingOf (normalizePendingTasksForUser
        ⟨[⟨"u1", "Alice", "a@x", ["t1", "t1"]⟩], []⟩ "u1").1 "u1"
      = dedupFirst ["t1", "t1"] ∧
    ((normalizePendingTasksForUser ⟨[⟨"u1", "Alice", "a@x", ["t1", "t1"]⟩], []⟩ "u1").2 = true
      ↔ dedupFirst ["t1", "t1"] ≠ ["t1", "t1"]) ∧
    ((["t1", "t1"] : List String).Nodup →
      normalizePendingTasksForUser ⟨[⟨"u1", "Alice", "a@x", ["t1", "t1"]⟩], []⟩ "u1"
        = (⟨[⟨"u1", "Alice", "a@x", ["t1", "t1"]⟩], []⟩, false)) ∧
    normalizePendingTasksForUser
        (normalizePendingTasksForUser ⟨[⟨"u1", "Alice", "a@x", ["t1", "t1"]⟩], []⟩ "u1").1 "u1"
      = ((normalizePendingTasksForUser ⟨[⟨"u1", "Alice", "a@x", ["t1", "t1"]⟩], []⟩ "u1").1, false) :=
  C6_normalizer_dedups_writes_iff_changed_and_idempotent
    ⟨[⟨"u1", "Alice", "a@x", ["t1", "t1"]⟩], []⟩ "u1" ⟨"u1", "Alice", "a@x", ["t1", "t1"]⟩
    (by decide)

/-! ## Helper lemmas about pull, add and normalize on a user -/

theorem pendingOf_updTasksWhere (s : Store) (p : TaskR → Bool) (f : TaskR → TaskR)
    (vid : String) : pendingOf (updTasksWhere s p f) vid = pendingOf s vid := rfl

theorem pendingOf_tasks_irrelevant (s : Store) (ts : List TaskR) (vid : String) :
    pendingOf { s with tasks := ts } vid = pendingOf s vid := rfl

theorem pendingOf_normUser_nodup (s : Store) (uid : String) :
    (pendingOf (normUser s uid) uid).Nodup := by
  rw [pendingOf_normUser, if_pos rfl]
  exact dedupFirst_nodup _

theorem pendingOf_pullNorm (s : Store) (au tid : String) :
    tid ∉ pendingOf
      (normUser (updUsers s au (fun v => { v with pendingTasks := pullList v.pendingTasks tid })) au)
      au := by
  rw [pendingOf_normUser, if_pos rfl,
    pendingOf_updUsers s au au (fun v => { v with pendingTasks := pullList v.pendingTasks tid })
      (fun v => rfl), if_pos rfl]
  cases hfind : findUser s au with
  | none => simp [dedupFirst]
  | some u =>
    intro hmem
    simp only [Option.map_some', Option.getD_some] at hmem
    have h1 := mem_dedupFirst.mp hmem
    exact (mem_pullList.mp h1).2 rfl

theorem pendingOf_pullNorm_other (s : Store) (au tid vid : String) (h : vid ≠ au) :
    pendingOf
      (normUser (updUsers s au (fun v => { v with pendingTasks := pullList v.pendingTasks tid })) au)
      vid = pendingOf s vid := by
  rw [pendingOf_normUser, if_neg h,
    pendingOf_updUsers s au vid
      (fun v => { v with pendingTasks := pullList v.pendingTasks tid }) (fun v => rfl),
    if_neg h]

theorem pendingOf_addNorm (s : Store) (au tid : String) {u : UserR}
    (hfind : findUser s au = some u) :
    tid ∈ pendingOf
      (normUser (updUsers s au (fun v => { v with pendingTasks := addToSet v.pendingTasks tid })) au)
      au := by
  rw [pendingOf_normUser, if_pos rfl,
    pendingOf_updUsers s au au (fun v => { v with pendingTasks := addToSet v.pendingTasks tid })
      (fun v => rfl), if_pos rfl, hfind]
  simp only [Option.map_some', Option.getD_some]
  exact mem_dedupFirst.mpr (mem_addToSet.mpr (Or.inr rfl))

theorem pendingOf_addNorm_other (s : Store) (au tid vid : String) (h : vid ≠ au) :
    pendingOf
      (normUser (updUsers s au (fun v => { v with pendingTasks := addToSet v.pendingTasks tid })) au)
      vid = pendingOf s vid := by
  rw [pendingOf_normUser, if_neg h,
    pendingOf_updUsers s au vid
      (fun v => { v with pendingTasks := addToSet v.pendingTasks tid }) (fun v => rfl),
    if_neg h]

theorem tasks_userOpNorm (s : Store) (au : String) (f : UserR → UserR) :
    (normUser (updUsers s au f) au).tasks = s.tasks := by
  rw [normUser_tasks, updUsers_tasks]

theorem find?_key_filter_ne {α : Type} (key : α → String) (x : String) (l : List α) :
    (l.filter (fun a => key a != x)).find? (fun a => key a == x) = none := by
  rw [List.find?_eq_none]
  intro a ha
  have := List.of_mem_filter ha
  simpa using this

/-- Claim C5: deleting an existing User unassigns (assignedUser empty,
assignedUserName the word unassigned) every Task whose id is in the
pending list of that User and removes the User record; deleting an
existing assigned Task removes its id from the pending list of the
assignee and removes the Task record; both answer an empty 204. -/
theorem C5_delete_cascades :
    (∀ (s : Store) (uid : String) (u : UserR), findUser s uid = some u →
      (deleteUser s uid).1 = ⟨204, ""⟩ ∧
      findUser (deleteUser s uid).2 uid = none ∧
      ∀ t ∈ (deleteUser s uid).2.tasks, t.id ∈ u.pendingTasks →
        t.assignedUser = "" ∧ t.assignedUserName = "unassigned") ∧
    (∀ (s : Store) (tid : String) (t : TaskR), findTask s tid = some t →
      (deleteTask s tid).1 = ⟨204, ""⟩ ∧
      findTask (deleteTask s tid).2 tid = none ∧
      (t.assignedUser ≠ "" → tid ∉ pendingOf (deleteTask s tid).2 t.assignedUser)) := by
  constructor
  · intro s uid u hfind
    unfold deleteUser
    rw [hfind]
    dsimp only
    by_cases hp : u.pendingTasks = []
    · rw [if_pos hp]
      refine ⟨rfl, ?_, ?_⟩
      · exact find?_key_filter_ne (fun (v : UserR) => v.id) uid s.users
      · intro t _ htid
        rw [hp] at htid
        cases htid
    · rw [if_neg hp]
      refine ⟨rfl, ?_, ?_⟩
      · exact find?_key_filter_ne (fun (v : UserR) => v.id) uid
          (updTasksWhere s (fun t => u.pendingTasks.contains t.id)
            (fun t => { t with assignedUser := "", assignedUserName := "unassigned" })).users
      · intro t htmem htid
        unfold updTasksWhere at htmem
        dsimp only at htmem
        rcases List.mem_map.mp htmem with ⟨t0, _, himg⟩
        by_cases hc : u.pendingTasks.contains t0.id
        · rw [if_pos hc] at himg
          rw [← himg]
          exact ⟨rfl, rfl⟩
        · rw [if_neg hc] at himg
          subst himg
          exact absurd (by simpa using htid) (by simpa using hc)
  · intro s tid t hfind
    unfold deleteTask
    rw [hfind]
    dsimp only
    by_cases ha : t.assignedUser = ""
    · rw [if_pos ha]
      refine ⟨rfl, ?_, ?_⟩
      · exact find?_key_filter_ne (fun (v : TaskR) => v.id) tid s.tasks
      · intro hne
        exact absurd ha hne
    · rw [if_neg ha]
      refine ⟨rfl, ?_, ?_⟩
      · exact find?_key_filter_ne (fun (v : TaskR) => v.id) tid _
      · intro _
        rw [pendingOf_tasks_irrelevant]
        exact pendingOf_pullNorm s t.assignedUser tid

/-- Witness for C5: a user with two pending tasks is deleted; an
assigned task is deleted. -/
theorem C5_delete_cascades_witness :
    (deleteUser ⟨[⟨"u1", "Alice", "a@x", ["t1", "t2"]⟩],
      [⟨"t1", "T", "", "d", false, "u1", "Alice"⟩,
       ⟨"t2", "T2", "", "d", false, "u1", "Alice"⟩]⟩ "u1").1 = ⟨204, ""⟩ ∧
    (deleteTask ⟨[⟨"u1", "Alice", "a@x", ["t1"]⟩],
      [⟨"t1", "T", "", "d", false, "u1", "Alice"⟩]⟩ "t1").1 = ⟨204, ""⟩ :=
  ⟨(C5_delete_cascades.1 _ "u1" ⟨"u1", "Alice", "a@x", ["t1", "t2"]⟩ (by decide)).1,
   (C5_delete_cascades.2 _ "t1" ⟨"t1", "T", "", "d", false, "u1", "Alice"⟩ (by decide)).1⟩

/-! ## The user update cascade with an empty new pending list -/

theorem putUserCascade_nil_pending (s : Store) (uid : String) (b : UserBody)
    (prevPending : List String) (huid : uid ≠ "") :
    pendingOf (putUserCascade s uid b prevPending []) uid = [] ∧
    ∀ t ∈ s.tasks, t.id ∈ prevPending → t.completed = false →
      ∃ t' ∈ (putUserCascade s uid b prevPending []).tasks,
        t'.id = t.id ∧ t'.assignedUser = "" ∧ t'.assignedUserName = "unassigned" := by
  unfold putUserCascade
  dsimp only
  rw [if_pos (rfl : ([] : List String) = [])]
  have hrem : prevPending.filter (fun x => !(([] : List String).contains x)) = prevPending := by
    simp
  rw [hrem]
  set s1 := updUsers s uid
    (fun v => { v with name := b.name, email := b.email, pendingTasks := [] }) with hs1
  have hpend1 : pendingOf s1 uid = [] := by
    rw [hs1, pendingOf_updUsers s uid uid
      (fun v => { v with name := b.name, email := b.email, pendingTasks := [] })
      (fun v => rfl), if_pos rfl]
    cases findUser s uid <;> simp
  have htasks1 : s1.tasks = s.tasks := rfl
  by_cases hprev : prevPending = []
  · rw [if_pos hprev]
    constructor
    · rw [pendingOf_normUser, if_pos rfl, pendingOf_updTasksWhere, hpend1]
      rfl
    · intro t _ htid _
      rw [hprev] at htid
      cases htid
  · rw [if_neg hprev]
    constructor
    · rw [pendingOf_normUser, if_pos rfl, pendingOf_updTasksWhere, pendingOf_updTasksWhere,
        hpend1]
      rfl
    · intro t htmem htid hntc
      refine ⟨{ t with assignedUser := "", assignedUserName := "unassigned" }, ?_, rfl, rfl, rfl⟩
      rw [normUser_tasks]
      unfold updTasksWhere
      dsimp only
      rw [htasks1]
      have hc1 : (prevPending.contains t.id && !t.completed) = true := by
        simp [htid, hntc]
      have himg := List.mem_map_of_mem
        (fun t0 => if prevPending.contains t0.id && !t0.completed
          then { t0 with assignedUser := "", assignedUserName := "unassigned" } else t0) htmem
      dsimp only at himg
      rw [if_pos hc1] at himg
      have himg2 := List.mem_map_of_mem
        (fun t0 => if t0.assignedUser == uid
          then { t0 with assignedUserName := b.name } else t0) himg
      dsimp only at himg2
      have hneg : ¬ ((("" : String) == uid) = true) := by
        simp only [beq_iff_eq]
        exact fun e => huid e.symm
      rwa [if_neg hneg] at himg2

/-- Claim C10: on a user update whose body passes validation, with the
user existing and the pendingTasks field absent or not an array, the
field is treated as the empty list: the saved pending list is empty and
every not-completed task whose id was in the previous pending set is
unassigned. -/
theorem C10_non_array_pending_treated_as_empty
    (s : Store) (uid : String) (u : UserR) (b : UserBody)
    (hname : b.name ≠ "") (hat : emailContainsAt b.email = true)
    (hfind : findUser s uid = some u) (huid : uid ≠ "")
    (hpf : b.pendingTasks = PendingField.absent ∨ b.pendingTasks = PendingField.notAnArray)
    (hemailfree : emailTaken s uid b.email = false) :
    (putUser s uid b).1 = ⟨200, "User updated"⟩ ∧
    pendingOf (putUser s uid b).2 uid = [] ∧
    ∀ t ∈ s.tasks, t.id ∈ u.pendingTasks → t.completed = false →
      ∃ t' ∈ (putUser s uid b).2.tasks,
        t'.id = t.id ∧ t'.assignedUser = "" ∧ t'.assignedUserName = "unassigned" := by
  have hemail : b.email ≠ "" := by
    intro e
    rw [e] at hat
    exact absurd hat (by decide)
  have hput : putUser s uid b = (⟨200, "User updated"⟩, putUserCascade s uid b u.pendingTasks []) := by
    unfold putUser
    rw [if_neg (by simp [hname, hemail]), if_neg (by simp [hat]), hfind]
    dsimp only
    rcases hpf with hpf | hpf <;> rw [hpf] <;> dsimp only <;>
      rw [if_neg (fun h => h.1 rfl), if_neg (fun h => h.1 rfl),
        if_neg (by simp [hemailfree])]
  rcases putUserCascade_nil_pending s uid b u.pendingTasks huid with ⟨h1, h2⟩
  rw [hput]
  exact ⟨rfl, h1, h2⟩

/-- Witness for C10: a user with one pending task updated with an
absent pendingTasks field. -/
theorem C10_non_array_pending_treated_as_empty_witness :
    (putUser ⟨[⟨"u1", "Alice", "a@x", ["t1"]⟩], [⟨"t1", "T", "", "d", false, "u1", "Alice"⟩]⟩
        "u1" ⟨"Alice", "a@x", PendingField.absent⟩).1 = ⟨200, "User updated"⟩ ∧
    pendingOf (putUser ⟨[⟨"u1", "Alice", "a@x", ["t1"]⟩],
        [⟨"t1", "T", "", "d", false, "u1", "Alice"⟩]⟩
        "u1" ⟨"Alice", "a@x", PendingField.absent⟩).2 "u1" = [] ∧
    ∀ t ∈ (Store.mk [⟨"u1", "Alice", "a@x", ["t1"]⟩]
        [⟨"t1", "T", "", "d", false, "u1", "Alice"⟩]).tasks,
      t.id ∈ (["t1"] : List String) → t.completed = false →
      ∃ t' ∈ (putUser ⟨[⟨"u1", "Alice", "a@x", ["t1"]⟩],
          [⟨"t1", "T", "", "d", false, "u1", "Alice"⟩]⟩
          "u1" ⟨"Alice", "a@x", PendingField.absent⟩).2.tasks,
        t'.id = t.id ∧ t'.assignedUser = "" ∧ t'.assignedUserName = "unassigned" :=
  C10_non_array_pending_treated_as_empty _ "u1" ⟨"u1", "Alice", "a@x", ["t1"]⟩ _
    (by decide) (by decide) (by decide) (by decide) (Or.inl rfl) (by decide)

/-! ## Characterization of a successful task update -/

theorem findUser_set_tasks (s : Store) (ts : List TaskR) (uid : String) :
    findUser { s with tasks := ts } uid = findUser s uid := rfl

theorem findTask_set_users (s : Store) (us : List UserR) (tid : String) :
    findTask { s with users := us } tid = findTask s tid := rfl

theorem findTask_congr {s1 s2 : Store} (h : s1.tasks = s2.tasks) (tid : String) :
    findTask s1 tid = findTask s2 tid := by
  unfold findTask
  rw [h]

theorem findUser_opNorm_other (s : Store) (au : String) (f : UserR → UserR)
    (hf : ∀ v, (f v).id = v.id) (vid : String) (h : vid ≠ au) :
    findUser (normUser (updUsers s au f) au) vid = findUser s vid := by
  rw [findUser_normUser, findUser_updUsers s au vid f hf]
  cases hv : findUser s vid with
  | none => rfl
  | some v =>
    have hvid := findUser_some_id hv
    have hne : ¬ v.id = au := by rw [hvid]; exact h
    simp [hne]

theorem findUser_opNorm_isSome (s : Store) (au : String) (f : UserR → UserR)
    (hf : ∀ v, (f v).id = v.id) {u : UserR} (hv : findUser s au = some u) :
    ∃ u', findUser (normUser (updUsers s au f) au) au = some u' := by
  rw [findUser_normUser, findUser_updUsers s au au f hf, hv]
  exact ⟨_, rfl⟩

/-- The save-time rewrite a successful task update applies to the task
record. -/
def taskSaveFun (b : TaskBody) (aname : String) : TaskR → TaskR := fun t0 =>
  { t0 with
    name := b.name, description := b.description, deadline := b.deadline,
    completed := coerceCompleted b.completed, assignedUser := b.assignedUser,
    assignedUserName := aname }

/-- The store produced by a successful task update that resolved its
assignee to (b.assignedUser, aname), starting from the save. -/
def putTaskTail (s : Store) (tid : String) (b : TaskBody) (aname prevAssigned : String) : Store :=
  let s1 := updTasksWhere s (fun t0 => t0.id == tid) (taskSaveFun b aname)
  let s2 :=
    if prevAssigned ≠ "" ∧ prevAssigned ≠ b.assignedUser then
      normUser
        (updUsers s1 prevAssigned (fun v => { v with pendingTasks := pullList v.pendingTasks tid }))
        prevAssigned
    else s1
  if b.assignedUser ≠ "" then
    normUser
      (if coerceCompleted b.completed then
        updUsers s2 b.assignedUser (fun v => { v with pendingTasks := pullList v.pendingTasks tid })
      else
        updUsers s2 b.assignedUser (fun v => { v with pendingTasks := addToSet v.pendingTasks tid }))
      b.assignedUser
  else s2

theorem resolveTaskAssignee_ok (s : Store) (b : TaskBody) {u : UserR}
    (hau : b.assignedUser ≠ "") (huser : findUser s b.assignedUser = some u)
    (hok : b.assignedUserName = none ∨
      ∃ n, b.assignedUserName = some n ∧ (lowerString n = "unassigned" ∨ n = u.name)) :
    resolveTaskAssignee s b = .ok (b.assignedUser, u.name) := by
  unfold resolveTaskAssignee
  rw [if_neg hau, huser]
  dsimp only
  rcases hok with hn | ⟨n, hn, hcase⟩
  · rw [hn]
  · rw [hn]
    dsimp only
    rw [if_neg ?hneg]
    case hneg =>
      rintro ⟨h1, h2⟩
      rcases hcase with hc | hc
      · exact h1 hc
      · exact h2 hc

theorem putTask_success_eq (s : Store) (tid : String) {t : TaskR} (b : TaskBody) (aname : String)
    (hname : b.name ≠ "") (hdl : b.deadline ≠ "")
    (hfind : findTask s tid = some t) (hnc : t.completed = false)
    (hres : resolveTaskAssignee s b = .ok (b.assignedUser, aname)) :
    putTask s tid b = (⟨200, "Task updated"⟩, putTaskTail s tid b aname t.assignedUser) := by
  unfold putTask
  rw [if_neg (by simp [hname, hdl]), hfind]
  dsimp only
  rw [hnc]
  simp only [Bool.false_eq_true, if_false]
  rw [hres]
  rfl

theorem findUser_updTasksWhere (s : Store) (p : TaskR → Bool) (f : TaskR → TaskR)
    (uid : String) : findUser (updTasksWhere s p f) uid = findUser s uid := rfl

/-- Claim C4: for a non-completed task assigned to one user, a
successful update that assigns it to a different existing user (and
does not complete it) removes the task id from the pending list of the
previous owner, puts it in the pending list of the new owner exactly
once, and stores the name of the new owner in assignedUserName. -/
theorem C4_reassignment_moves_pending_and_name
    (s : Store) (tid : String) (t : TaskR) (b : TaskBody) (u2 : UserR)
    (hname : b.name ≠ "") (hdl : b.deadline ≠ "")
    (hfind : findTask s tid = some t) (hnc : t.completed = false)
    (hprev : t.assignedUser ≠ "")
    (hau : b.assignedUser ≠ "") (hdiff : t.assignedUser ≠ b.assignedUser)
    (huser : findUser s b.assignedUser = some u2)
    (hn : b.assignedUserName = none)
    (hcomp : coerceCompleted b.completed = false) :
    (putTask s tid b).1 = ⟨200, "Task updated"⟩ ∧
    tid ∉ pendingOf (putTask s tid b).2 t.assignedUser ∧
    tid ∈ pendingOf (putTask s tid b).2 b.assignedUser ∧
    (pendingOf (putTask s tid b).2 b.assignedUser).count tid = 1 ∧
    (findTask (putTask s tid b).2 tid).map (fun t' => t'.assignedUserName) = some u2.name := by
  have hres := resolveTaskAssignee_ok s b hau huser (Or.inl hn)
  have heq := putTask_success_eq s tid b u2.name hname hdl hfind hnc hres
  rw [heq]
  dsimp only
  unfold putTaskTail
  dsimp only
  rw [if_pos hau, hcomp]
  simp only [Bool.false_eq_true, if_false]
  rw [if_pos ⟨hprev, hdiff⟩]
  set s1 := updTasksWhere s (fun t0 => t0.id == tid) (taskSaveFun b u2.name) with hs1
  set s2 := normUser
    (updUsers s1 t.assignedUser (fun v => { v with pendingTasks := pullList v.pendingTasks tid }))
    t.assignedUser with hs2
  have hne21 : b.assignedUser ≠ t.assignedUser := fun e => hdiff e.symm
  have hfindS2 : findUser s2 (b.assignedUser) = some u2 := by
    rw [hs2, findUser_opNorm_other s1 t.assignedUser
      (fun v => { v with pendingTasks := pullList v.pendingTasks tid }) (fun v => rfl)
      b.assignedUser hne21, hs1, findUser_updTasksWhere, huser]
  refine ⟨by trivial, ?_, ?_, ?_, ?_⟩
  · rw [pendingOf_addNorm_other _ _ _ _ hdiff, hs2]
    exact pendingOf_pullNorm s1 t.assignedUser tid
  · exact pendingOf_addNorm s2 b.assignedUser tid hfindS2
  · exact List.count_eq_one_of_mem (pendingOf_normUser_nodup _ _)
      (pendingOf_addNorm s2 b.assignedUser tid hfindS2)
  · have htasks : (normUser
        (updUsers s2 b.assignedUser (fun v => { v with pendingTasks := addToSet v.pendingTasks tid }))
        b.assignedUser).tasks = s1.tasks := by
      rw [tasks_userOpNorm, hs2, tasks_userOpNorm, hs1]
    rw [findTask_congr htasks, hs1, findTask_updTasksWhere s tid (fun t0 => t0.id == tid)
      (taskSaveFun b u2.name) (fun t0 => rfl), hfind]
    have hid : t.id = tid := findTask_some_id hfind
    simp [hid, taskSaveFun]

/-- Witness for C4: a task assigned to one user is reassigned to a
second existing user. -/
theorem C4_reassignment_moves_pending_and_name_witness :
    (putTask ⟨[⟨"u1", "Alice", "a@x", ["t1"]⟩, ⟨"u2", "Bob", "b@x", []⟩],
        [⟨"t1", "T", "", "d", false, "u1", "Alice"⟩]⟩
        "t1" ⟨"T", "", "d", CompletedField.bool false, "u2", none⟩).1 = ⟨200, "Task updated"⟩ ∧
    "t1" ∉ pendingOf (putTask ⟨[⟨"u1", "Alice", "a@x", ["t1"]⟩, ⟨"u2", "Bob", "b@x", []⟩],
        [⟨"t1", "T", "", "d", false, "u1", "Alice"⟩]⟩
        "t1" ⟨"T", "", "d", CompletedField.bool false, "u2", none⟩).2 "u1" ∧
    "t1" ∈ pendingOf (putTask ⟨[⟨"u1", "Alice", "a@x", ["t1"]⟩, ⟨"u2", "Bob", "b@x", []⟩],
        [⟨"t1", "T", "", "d", false, "u1", "Alice"⟩]⟩
        "t1" ⟨"T", "", "d", CompletedField.bool false, "u2", none⟩).2 "u2" := by
  have h := C4_reassignment_moves_pending_and_name
    ⟨[⟨"u1", "Alice", "a@x", ["t1"]⟩, ⟨"u2", "Bob", "b@x", []⟩],
      [⟨"t1", "T", "", "d", false, "u1", "Alice"⟩]⟩
    "t1" ⟨"t1", "T", "", "d", false, "u1", "Alice"⟩
    ⟨"T", "", "d", CompletedField.bool false, "u2", none⟩ ⟨"u2", "Bob", "b@x", []⟩
    (by decide) (by decide) (by decide) (by decide) (by decide) (by decide) (by decide)
    (by decide) rfl (by decide)
  exact ⟨h.1, h.2.1, h.2.2.1⟩

/-! ## Characterization of a successful task create -/

/-- The task record a successful create inserts. -/
def newTaskRec (b : TaskBody) (newId au aname : String) : TaskR :=
  { id := newId, name := b.name, description := b.description, deadline := b.deadline,
    completed := coerceCompleted b.completed, assignedUser := au, assignedUserName := aname }

theorem postTask_success_eq (s : Store) (b : TaskBody) (newId : String) {u : UserR}
    (hn : b.name ≠ "") (hd : b.deadline ≠ "") (hau : b.assignedUser ≠ "")
    (huser : findUser s b.assignedUser = some u) (han : b.assignedUserName = none) :
    postTask s b newId
      = postTaskFinish s b newId b.assignedUser
          (if u.name = "" then "unassigned" else u.name) := by
  unfold postTask
  rw [if_neg (by simp [hn, hd]), if_neg hau, huser]
  dsimp only
  rw [han]
  rfl

theorem postTaskFinish_assigned_incomplete (s : Store) (b : TaskBody) (newId au aname : String)
    (hau : au ≠ "") (hc : coerceCompleted b.completed = false) :
    postTaskFinish s b newId au aname
      = (⟨201, "Task created"⟩,
         normUser
           (updUsers { s with tasks := s.tasks ++ [newTaskRec b newId au aname] } au
             (fun v => { v with pendingTasks := addToSet v.pendingTasks newId }))
           au) := by
  unfold postTaskFinish newTaskRec
  dsimp only
  rw [if_pos ⟨hau, hc⟩]

/-- Claim C3: creating a task assigned to an existing user with
completed false puts the new task id into the pending list of that
user; immediately updating the same task with completed true removes
the id from that pending list. -/
theorem C3_create_then_complete_roundtrip
    (s : Store) (uid : String) (u : UserR) (newId : String) (b1 b2 : TaskBody)
    (hfind : findUser s uid = some u)
    (hfresh : ∀ t ∈ s.tasks, t.id ≠ newId)
    (huid : uid ≠ "")
    (h1n : b1.name ≠ "") (h1d : b1.deadline ≠ "") (h1au : b1.assignedUser = uid)
    (h1an : b1.assignedUserName = none) (h1c : coerceCompleted b1.completed = false)
    (h2n : b2.name ≠ "") (h2d : b2.deadline ≠ "") (h2au : b2.assignedUser = uid)
    (h2an : b2.assignedUserName = none) (h2c : coerceCompleted b2.completed = true) :
    (postTask s b1 newId).1 = ⟨201, "Task created"⟩ ∧
    newId ∈ pendingOf (postTask s b1 newId).2 uid ∧
    (putTask (postTask s b1 newId).2 newId b2).1 = ⟨200, "Task updated"⟩ ∧
    newId ∉ pendingOf (putTask (postTask s b1 newId).2 newId b2).2 uid := by
  have hau1 : b1.assignedUser ≠ "" := by rw [h1au]; exact huid
  have huser1 : findUser s b1.assignedUser = some u := by rw [h1au]; exact hfind
  have heq1 := postTask_success_eq s b1 newId h1n h1d hau1 huser1 h1an
  rw [postTaskFinish_assigned_incomplete s b1 newId b1.assignedUser _ hau1 h1c] at heq1
  rw [heq1, h1au]
  set T := newTaskRec b1 newId uid
    (if u.name = "" then "unassigned" else u.name) with hT
  set SS1 : Store := { s with tasks := s.tasks ++ [T] } with hSS1
  set S2 := normUser
    (updUsers SS1 uid (fun v => { v with pendingTasks := addToSet v.pendingTasks newId })) uid
    with hS2
  have hfindSS1 : findUser SS1 uid = some u := by rw [hSS1, findUser_set_tasks]; exact hfind
  have hmem2 : newId ∈ pendingOf S2 uid := pendingOf_addNorm SS1 uid newId hfindSS1
  have hT2 : T.assignedUser = uid := by rw [hT]; rfl
  have hTc : T.completed = false := by rw [hT]; exact h1c
  have hTid : T.id = newId := by rw [hT]; rfl
  have hfind2 : findTask S2 newId = some T := by
    have h1 : S2.tasks = SS1.tasks := by rw [hS2, tasks_userOpNorm]
    rw [findTask_congr h1, hSS1]
    unfold findTask
    dsimp only
    rw [List.find?_append]
    have hnone : s.tasks.find? (fun t0 => t0.id == newId) = none := by
      rw [List.find?_eq_none]
      intro t0 ht0
      simpa using hfresh t0 ht0
    rw [hnone]
    simp [hTid]
  rcases findUser_opNorm_isSome SS1 uid
      (fun v => { v with pendingTasks := addToSet v.pendingTasks newId })
      (fun v => rfl) hfindSS1 with ⟨u2, hu2⟩
  have hau2 : b2.assignedUser ≠ "" := by rw [h2au]; exact huid
  have huser2 : findUser S2 b2.assignedUser = some u2 := by rw [h2au, hS2]; exact hu2
  have hres2 := resolveTaskAssignee_ok S2 b2 hau2 huser2 (Or.inl h2an)
  have heq2 := putTask_success_eq S2 newId b2 u2.name h2n h2d hfind2 hTc hres2
  rw [heq2]
  refine ⟨rfl, hmem2, rfl, ?_⟩
  unfold putTaskTail
  dsimp only
  rw [hT2, h2au, if_pos huid, h2c, if_pos rfl, if_neg (fun h => h.2 rfl)]
  exact pendingOf_pullNorm _ uid newId

/-- Witness for C3: a fresh task is created for an existing user and
then completed. -/
theorem C3_create_then_complete_roundtrip_witness :
    (postTask ⟨[⟨"u1", "Alice", "a@x", []⟩], []⟩
        ⟨"T", "", "d", CompletedField.bool false, "u1", none⟩ "t9").1 = ⟨201, "Task created"⟩ ∧
    "t9" ∈ pendingOf (postTask ⟨[⟨"u1", "Alice", "a@x", []⟩], []⟩
        ⟨"T", "", "d", CompletedField.bool false, "u1", none⟩ "t9").2 "u1" ∧
    (putTask (postTask ⟨[⟨"u1", "Alice", "a@x", []⟩], []⟩
        ⟨"T", "", "d", CompletedField.bool false, "u1", none⟩ "t9").2 "t9"
        ⟨"T", "", "d", CompletedField.bool true, "u1", none⟩).1 = ⟨200, "Task updated"⟩ ∧
    "t9" ∉ pendingOf (putTask (postTask ⟨[⟨"u1", "Alice", "a@x", []⟩], []⟩
        ⟨"T", "", "d", CompletedField.bool false, "u1", none⟩ "t9").2 "t9"
        ⟨"T", "", "d", CompletedField.bool true, "u1", none⟩).2 "u1" :=
  C3_create_then_complete_roundtrip ⟨[⟨"u1", "Alice", "a@x", []⟩], []⟩ "u1"
    ⟨"u1", "Alice", "a@x", []⟩ "t9"
    ⟨"T", "", "d", CompletedField.bool false, "u1", none⟩
    ⟨"T", "", "d", CompletedField.bool true, "u1", none⟩
    (by decide) (by decide) (by decide)
    (by decide) (by decide) rfl rfl (by decide)
    (by decide) (by decide) rfl rfl (by decide)

/-! ## The user update cascade with a non-empty new pending list -/

theorem foldl_cleanup_isSome (uid : String) :
    ∀ (ts : List TaskR) (acc : Store) (vid : String),
      (findUser acc vid).isSome = true →
      (findUser (ts.foldl (cleanupStep uid) acc) vid).isSome = true := by
  intro ts
  induction ts with
  | nil => intro acc vid h; exact h
  | cons t ts ih =>
    intro acc vid h
    rw [List.foldl_cons]
    apply ih
    unfold cleanupStep
    split
    · exact h
    · rw [findUser_normUser, findUser_updUsers acc t.assignedUser vid
        (fun v => { v with pendingTasks := pullList v.pendingTasks t.id }) (fun v => rfl)]
      cases hv : findUser acc vid with
      | none => rw [hv] at h; cases h
      | some v => simp

theorem putUserCascade_pending_members (s : Store) (uid : String) (b : UserBody)
    (prevPending newPending : List String)
    (hnp : newPending ≠ [])
    (hfindu : (findUser s uid).isSome = true)
    (hnc : ∀ t ∈ s.tasks, t.id ∈ newPending → t.completed = false)
    (hall : ∀ tid ∈ newPending, ∃ t ∈ s.tasks, t.id = tid) :
    ∀ x, x ∈ pendingOf (putUserCascade s uid b prevPending newPending) uid ↔ x ∈ newPending := by
  unfold putUserCascade
  dsimp only
  rw [if_neg hnp]
  set s1 := updUsers s uid
    (fun v => { v with name := b.name, email := b.email, pendingTasks := newPending }) with hs1
  have htasks1 : s1.tasks = s.tasks := rfl
  rw [htasks1]
  set tasks2 := s.tasks.filter (fun t => newPending.contains t.id) with htasks2
  have hincfilter : tasks2.filter (fun t => !t.completed) = tasks2 := by
    rw [List.filter_eq_self]
    intro t ht
    rcases List.mem_filter.mp ht with ⟨htmem, hcont⟩
    have : t.id ∈ newPending := by simpa using hcont
    simp [hnc t htmem this]
  rw [hincfilter]
  set incomplete := tasks2.map (fun t => t.id) with hinc
  have hincne : incomplete ≠ [] := by
    rcases hnp' : newPending with _ | ⟨tid0, rest⟩
    · exact absurd hnp' hnp
    · have h0 : tid0 ∈ newPending := by rw [hnp']; exact List.mem_cons_self _ _
      rcases hall tid0 h0 with ⟨t0, ht0mem, ht0id⟩
      have : t0 ∈ tasks2 := by
        rw [htasks2, List.mem_filter]
        exact ⟨ht0mem, by simp [ht0id, h0]⟩
      intro he
      rw [hinc] at he
      rcases List.map_eq_nil_iff.mp he with h
      rw [h] at this
      cases this
  rw [if_neg hincne]
  have hfind2 : (findUser (updTasksWhere (tasks2.foldl (cleanupStep uid) s1)
      (fun t => incomplete.contains t.id)
      (fun t => { t with assignedUser := uid, assignedUserName := b.name })) uid).isSome = true := by
    rw [findUser_updTasksWhere]
    apply foldl_cleanup_isSome uid tasks2 s1 uid
    rw [hs1, findUser_updUsers s uid uid
      (fun v => { v with name := b.name, email := b.email, pendingTasks := newPending })
      (fun v => rfl)]
    cases hv : findUser s uid with
    | none => rw [hv] at hfindu; cases hfindu
    | some v => simp
  have hpend3 : pendingOf (updUsers (updTasksWhere (tasks2.foldl (cleanupStep uid) s1)
      (fun t => incomplete.contains t.id)
      (fun t => { t with assignedUser := uid, assignedUserName := b.name })) uid
      (fun v => { v with pendingTasks := incomplete })) uid = incomplete := by
    rw [pendingOf_updUsers _ uid uid (fun v => { v with pendingTasks := incomplete })
      (fun v => rfl), if_pos rfl]
    cases hv : findUser (updTasksWhere (tasks2.foldl (cleanupStep uid) s1)
        (fun t => incomplete.contains t.id)
        (fun t => { t with assignedUser := uid, assignedUserName := b.name })) uid with
    | none => rw [hv] at hfind2; cases hfind2
    | some v => simp
  have hstep : ∀ s4 : Store, s4.users
        = (updUsers (updTasksWhere (tasks2.foldl (cleanupStep uid) s1)
            (fun t => incomplete.contains t.id)
            (fun t => { t with assignedUser := uid, assignedUserName := b.name })) uid
            (fun v => { v with pendingTasks := incomplete })).users →
      pendingOf (normUser (updTasksWhere s4 (fun t => t.assignedUser == uid)
        (fun t => { t with assignedUserName := b.name })) uid) uid = dedupFirst incomplete := by
    intro s4 husers
    rw [pendingOf_normUser, if_pos rfl, pendingOf_updTasksWhere]
    have : pendingOf s4 uid = incomplete := by
      unfold pendingOf findUser
      rw [husers]
      exact hpend3
    rw [this]
  have hstepA := hstep
    (updUsers (updTasksWhere (tasks2.foldl (cleanupStep uid) s1)
      (fun t => incomplete.contains t.id)
      (fun t => { t with assignedUser := uid, assignedUserName := b.name })) uid
      (fun v => { v with pendingTasks := incomplete })) rfl
  have hstepB := hstep
    (updTasksWhere
      (updUsers (updTasksWhere (tasks2.foldl (cleanupStep uid) s1)
        (fun t => incomplete.contains t.id)
        (fun t => { t with assignedUser := uid, assignedUserName := b.name })) uid
        (fun v => { v with pendingTasks := incomplete }))
      (fun t => (prevPending.filter (fun x0 => !(newPending.contains x0))).contains t.id
        && !t.completed)
      (fun t => { t with assignedUser := "", assignedUserName := "unassigned" })) rfl
  intro x
  by_cases hrem : prevPending.filter (fun x0 => !(newPending.contains x0)) = []
  · rw [if_pos hrem, hstepA, mem_dedupFirst]
    constructor
    · intro hx
      rcases List.mem_map.mp hx with ⟨t, htmem, hid⟩
      rcases List.mem_filter.mp htmem with ⟨_, hcont⟩
      rw [← hid]
      simpa using hcont
    · intro hx
      rcases hall x hx with ⟨t, htmem, hid⟩
      refine List.mem_map.mpr ⟨t, ?_, hid⟩
      rw [htasks2, List.mem_filter]
      exact ⟨htmem, by simp [hid, hx]⟩
  · rw [if_neg hrem, hstepB, mem_dedupFirst]
    constructor
    · intro hx
      rcases List.mem_map.mp hx with ⟨t, htmem, hid⟩
      rcases List.mem_filter.mp htmem with ⟨_, hcont⟩
      rw [← hid]
      simpa using hcont
    · intro hx
      rcases hall x hx with ⟨t, htmem, hid⟩
      refine List.mem_map.mpr ⟨t, ?_, hid⟩
      rw [htasks2, List.mem_filter]
      exact ⟨htmem, by simp [hid, hx]⟩

/-- Claim C7 (amended): a referenced completed task is an error, not a
silent drop; dually, when the update passes validation (all referenced
tasks exist and none is completed) the update succeeds and the new
pending set of the user has exactly the members of the de-duplicated
referenced list - the not-completed subset is the whole set. -/
theorem C7_success_pending_is_referenced_set
    (s : Store) (uid : String) (u : UserR) (b : UserBody) (l : List String)
    (hname : b.name ≠ "") (hat : emailContainsAt b.email = true)
    (hfind : findUser s uid = some u)
    (hpf : b.pendingTasks = .arr l)
    (hne : dedupFirst l ≠ [])
    (hall : ∀ tid ∈ dedupFirst l, ∃ t ∈ s.tasks, t.id = tid)
    (hnc : ∀ t ∈ s.tasks, t.id ∈ dedupFirst l → t.completed = false)
    (hemailfree : emailTaken s uid b.email = false) :
    (putUser s uid b).1 = ⟨200, "User updated"⟩ ∧
    ∀ x, x ∈ pendingOf (putUser s uid b).2 uid ↔ x ∈ dedupFirst l := by
  have hemail : b.email ≠ "" := by
    intro e
    rw [e] at hat
    exact absurd hat (by decide)
  have hput : putUser s uid b
      = (⟨200, "User updated"⟩, putUserCascade s uid b u.pendingTasks (dedupFirst l)) := by
    unfold putUser
    rw [if_neg (by simp [hname, hemail]), if_neg (by simp [hat]), hfind]
    dsimp only
    rw [hpf]
    dsimp only
    have hmissing :
        (dedupFirst l).filter
          (fun tid => !(((s.tasks.filter (fun t => (dedupFirst l).contains t.id)).map
            (fun t => t.id)).contains tid)) = [] := by
      rw [List.filter_eq_nil_iff]
      intro tid htid
      rcases hall tid htid with ⟨t, htmem, hid⟩
      simp
      exact ⟨t, htmem, by rw [hid]; exact htid, hid⟩
    have hanyf : ((s.tasks.filter (fun t => (dedupFirst l).contains t.id)).any
        (fun t => t.completed)) = false := by
      rw [List.any_eq_false]
      intro t ht
      rcases List.mem_filter.mp ht with ⟨htm, hcont⟩
      simp [hnc t htm (by simpa using hcont)]
    rw [if_neg (fun h => h.2 hmissing)]
    rw [if_neg ?hc, if_neg (by simp [hemailfree])]
    case hc =>
      rintro ⟨_, h2⟩
      rw [hanyf] at h2
      cases h2
  rw [hput]
  exact ⟨rfl, putUserCascade_pending_members s uid b u.pendingTasks (dedupFirst l) hne
    (by rw [hfind]; rfl) hnc hall⟩

/-- Witness for C7: an update referencing one existing not-completed
task succeeds and stores exactly that reference. -/
theorem C7_success_pending_is_referenced_set_witness :
    (putUser ⟨[⟨"u1", "Alice", "a@x", []⟩], [⟨"t1", "T", "", "d", false, "", "unassigned"⟩]⟩
        "u1" ⟨"Alice", "a@x", PendingField.arr ["t1"]⟩).1 = ⟨200, "User updated"⟩ ∧
    ∀ x, x ∈ pendingOf (putUser ⟨[⟨"u1", "Alice", "a@x", []⟩],
        [⟨"t1", "T", "", "d", false, "", "unassigned"⟩]⟩
        "u1" ⟨"Alice", "a@x", PendingField.arr ["t1"]⟩).2 "u1"
      ↔ x ∈ dedupFirst ["t1"] :=
  C7_success_pending_is_referenced_set
    ⟨[⟨"u1", "Alice", "a@x", []⟩], [⟨"t1", "T", "", "d", false, "", "unassigned"⟩]⟩
    "u1" ⟨"u1", "Alice", "a@x", []⟩ ⟨"Alice", "a@x", PendingField.arr ["t1"]⟩ ["t1"]
    (by decide) (by decide) (by decide) rfl (by decide) (by decide) (by decide) (by decide)

/-! ## The referential-integrity invariant -/

/-- The store invariant the consistency engines maintain: unique
non-empty user ids, unique task ids, duplicate-free pending lists,
every pending id names an existing not-completed task assigned to that
user, and every not-completed assigned task is pending at its (existing)
assignee. -/
def StoreInv (s : Store) : Prop :=
  (userIds s).Nodup ∧
  (taskIds s).Nodup ∧
  (∀ u ∈ s.users, u.id ≠ "") ∧
  (∀ u ∈ s.users, u.pendingTasks.Nodup) ∧
  (∀ u ∈ s.users, ∀ tid ∈ u.pendingTasks,
    ∃ t ∈ s.tasks, t.id = tid ∧ t.completed = false ∧ t.assignedUser = u.id) ∧
  (∀ t ∈ s.tasks, t.assignedUser ≠ "" → t.completed = false →
    ∃ u ∈ s.users, u.id = t.assignedUser ∧ t.id ∈ u.pendingTasks)

/-- The claim phrased as in the spec: every not-completed assigned task
is in the pending list of its assignee exactly once, and no pending
list holds the id of a completed or unassigned task. -/
def PendingExactly (s : Store) : Prop :=
  (∀ t ∈ s.tasks, t.assignedUser ≠ "" → t.completed = false →
    ∃ u ∈ s.users, u.id = t.assignedUser ∧ u.pendingTasks.count t.id = 1) ∧
  (∀ t ∈ s.tasks, (t.completed = true ∨ t.assignedUser = "") →
    ∀ u ∈ s.users, t.id ∉ u.pendingTasks)

theorem user_eq_of_id {s : Store} (hnd : (userIds s).Nodup) {a b : UserR}
    (ha : a ∈ s.users) (hb : b ∈ s.users) (h : a.id = b.id) : a = b := by
  have h1 := findUser_of_mem hnd ha
  have h2 := findUser_of_mem hnd hb
  rw [h, h2] at h1
  injection h1 with h1
  exact h1.symm

theorem task_eq_of_id {s : Store} (hnd : (taskIds s).Nodup) {a b : TaskR}
    (ha : a ∈ s.tasks) (hb : b ∈ s.tasks) (h : a.id = b.id) : a = b := by
  have h1 := findTask_of_mem hnd ha
  have h2 := findTask_of_mem hnd hb
  rw [h, h2] at h1
  injection h1 with h1
  exact h1.symm

theorem pendingExactly_of_inv {s : Store} (h : StoreInv s) : PendingExactly s := by
  obtain ⟨hu, ht, hne, hpn, hp2t, ht2p⟩ := h
  constructor
  · intro t htm hta htc
    rcases ht2p t htm hta htc with ⟨u, hum, huid, hmem⟩
    exact ⟨u, hum, huid, List.count_eq_one_of_mem (hpn u hum) hmem⟩
  · intro t htm hbad u hum hmem
    rcases hp2t u hum t.id hmem with ⟨t', ht'm, ht'id, ht'c, ht'a⟩
    have : t' = t := task_eq_of_id ht ht'm htm ht'id
    subst this
    rcases hbad with hb | hb
    · rw [ht'c] at hb
      cases hb
    · rw [hb] at ht'a
      exact hne u hum ht'a.symm

theorem mem_updUsers {s : Store} {au : String} {g : UserR → UserR} {v' : UserR} :
    v' ∈ (updUsers s au g).users ↔ ∃ v ∈ s.users, v' = if v.id == au then g v else v := by
  unfold updUsers
  dsimp only
  rw [List.mem_map]
  constructor
  · rintro ⟨v, hv, he⟩
    exact ⟨v, hv, he.symm⟩
  · rintro ⟨v, hv, he⟩
    exact ⟨v, hv, he.symm⟩

theorem mem_updTasksWhere {s : Store} {p : TaskR → Bool} {f : TaskR → TaskR} {t' : TaskR} :
    t' ∈ (updTasksWhere s p f).tasks ↔ ∃ t ∈ s.tasks, t' = if p t then f t else t := by
  unfold updTasksWhere
  dsimp only
  rw [List.mem_map]
  constructor
  · rintro ⟨t, htm, he⟩
    exact ⟨t, htm, he.symm⟩
  · rintro ⟨t, htm, he⟩
    exact ⟨t, htm, he.symm⟩

/-- When every pending list is duplicate-free, the normalizer after a
pull is a no-op. -/
theorem normUser_after_pull (s : Store) (au tid : String)
    (hped : ∀ v ∈ s.users, v.pendingTasks.Nodup) :
    normUser (updUsers s au (fun v => { v with pendingTasks := pullList v.pendingTasks tid })) au
      = updUsers s au (fun v => { v with pendingTasks := pullList v.pendingTasks tid }) := by
  cases hv : findUser s au with
  | none =>
    apply normUser_of_not_found
    rw [findUser_updUsers s au au
      (fun v => { v with pendingTasks := pullList v.pendingTasks tid }) (fun v => rfl), hv]
    rfl
  | some u0 =>
    have hid : u0.id = au := findUser_some_id hv
    apply normUser_of_nodup (u := { u0 with pendingTasks := pullList u0.pendingTasks tid })
    · rw [findUser_updUsers s au au
        (fun v => { v with pendingTasks := pullList v.pendingTasks tid }) (fun v => rfl), hv]
      simp [hid]
    · exact pullList_nodup (hped u0 (findUser_some_mem hv)) tid

/-- When every pending list is duplicate-free, the normalizer after an
add-to-set is a no-op. -/
theorem normUser_after_add (s : Store) (au tid : String)
    (hped : ∀ v ∈ s.users, v.pendingTasks.Nodup) :
    normUser (updUsers s au (fun v => { v with pendingTasks := addToSet v.pendingTasks tid })) au
      = updUsers s au (fun v => { v with pendingTasks := addToSet v.pendingTasks tid }) := by
  cases hv : findUser s au with
  | none =>
    apply normUser_of_not_found
    rw [findUser_updUsers s au au
      (fun v => { v with pendingTasks := addToSet v.pendingTasks tid }) (fun v => rfl), hv]
    rfl
  | some u0 =>
    have hid : u0.id = au := findUser_some_id hv
    apply normUser_of_nodup (u := { u0 with pendingTasks := addToSet u0.pendingTasks tid })
    · rw [findUser_updUsers s au au
        (fun v => { v with pendingTasks := addToSet v.pendingTasks tid }) (fun v => rfl), hv]
      simp [hid]
    · exact addToSet_nodup (hped u0 (findUser_some_mem hv)) tid

/-! ## Invariant preservation, operation by operation -/

theorem inv_postUser (s : Store) (b : UserBody) (newId : String)
    (hinv : StoreInv s) (hne : newId ≠ "") (hfresh : ∀ u ∈ s.users, u.id ≠ newId) :
    StoreInv (postUser s b newId).2 := by
  unfold postUser
  split
  · exact hinv
  · split
    · exact hinv
    · split
      · exact hinv
      · split
        · exact hinv
        · dsimp only
          have hfindnew : findUser { s with users := s.users
              ++ [{ id := newId, name := b.name, email := b.email, pendingTasks := [] }] } newId
              = some { id := newId, name := b.name, email := b.email, pendingTasks := [] } := by
            unfold findUser
            dsimp only
            rw [List.find?_append]
            have hnone : s.users.find? (fun u => u.id == newId) = none := by
              rw [List.find?_eq_none]
              intro u hu
              simpa using hfresh u hu
            rw [hnone]
            simp
          rw [normUser_of_nodup hfindnew List.nodup_nil]
          obtain ⟨h1, h2, h3, h4, h5, h6⟩ := hinv
          refine ⟨?_, h2, ?_, ?_, ?_, ?_⟩
          · unfold userIds
            dsimp only
            rw [List.map_append]
            rw [List.nodup_append]
            refine ⟨h1, by simp, ?_⟩
            intro x hx
            simp only [List.map_cons, List.map_nil, List.mem_singleton]
            rcases List.mem_map.mp hx with ⟨u, hu, hid⟩
            intro he
            rw [he] at hid
            exact hfresh u hu hid
          · intro u hu
            rcases List.mem_append.mp hu with h | h
            · exact h3 u h
            · rw [List.mem_singleton.mp h]
              exact hne
          · intro u hu
            rcases List.mem_append.mp hu with h | h
            · exact h4 u h
            · rw [List.mem_singleton.mp h]
              exact List.nodup_nil
          · intro u hu tid htid
            rcases List.mem_append.mp hu with h | h
            · exact h5 u h tid htid
            · rw [List.mem_singleton.mp h] at htid
              cases htid
          · intro t htm hta htc
            rcases h6 t htm hta htc with ⟨u, hum, hx⟩
            exact ⟨u, List.mem_append_left _ hum, hx⟩

theorem inv_deleteUser (s : Store) (uid : String) (hinv : StoreInv s) :
    StoreInv (deleteUser s uid).2 := by
  unfold deleteUser
  cases hf : findUser s uid with
  | none => exact hinv
  | some u =>
    dsimp only
    have humem := findUser_some_mem hf
    have huid := findUser_some_id hf
    obtain ⟨h1, h2, h3, h4, h5, h6⟩ := hinv
    have husersnd : ((s.users.filter (fun v => v.id != uid)).map (fun v => v.id)).Nodup :=
      ((List.filter_sublist _).map _).nodup h1
  
    by_cases hp : u.pendingTasks = []
    · rw [if_pos hp]
      refine ⟨husersnd, h2, ?_, ?_, ?_, ?_⟩
      · intro v hv
        exact h3 v (List.mem_of_mem_filter hv)
      · intro v hv
        exact h4 v (List.mem_of_mem_filter hv)
      · intro v hv tid htid
        exact h5 v (List.mem_of_mem_filter hv) tid htid
      · intro t htm hta htc
        rcases h6 t htm hta htc with ⟨v, hvm, hvid, hvmem⟩
        refine ⟨v, ?_, hvid, hvmem⟩
        rw [List.mem_filter]
        refine ⟨hvm, ?_⟩
        simp only [bne_iff_ne, ne_eq]
        intro he
        have : v = u := user_eq_of_id h1 hvm humem (by rw [he, huid])
        subst this
        rw [hp] at hvmem
        cases hvmem
    · rw [if_neg hp]
      refine ⟨husersnd, ?_, ?_, ?_, ?_, ?_⟩
      · show (taskIds (updTasksWhere s (fun t => u.pendingTasks.contains t.id)
          (fun t => { t with assignedUser := "", assignedUserName := "unassigned" }))).Nodup
        rw [taskIds_updTasksWhere s (fun t => u.pendingTasks.contains t.id)
          (fun t => { t with assignedUser := "", assignedUserName := "unassigned" })
          (fun t => rfl)]
        exact h2
      · intro v hv
        exact h3 v (List.mem_of_mem_filter hv)
      · intro v hv
        exact h4 v (List.mem_of_mem_filter hv)
      · intro v hv tid htid
        have hvm := List.mem_of_mem_filter hv
        have hvne : v.id ≠ uid := by
          have := (List.mem_filter.mp hv).2
          simpa using this
        rcases h5 v hvm tid htid with ⟨t, htm, htid2, htc, hta⟩
        have hcont : u.pendingTasks.contains t.id = false := by
          rcases hc : u.pendingTasks.contains t.id with _ | _
          · rfl
          · exfalso
            have hmem2 : t.id ∈ u.pendingTasks := by simpa using hc
            rcases h5 u humem t.id hmem2 with ⟨t2, ht2m, ht2id, _, ht2a⟩
            have : t2 = t := task_eq_of_id h2 ht2m htm ht2id
            subst this
            rw [hta] at ht2a
            exact hvne (ht2a.trans huid)
        refine ⟨t, ?_, htid2, htc, hta⟩
        have himg := List.mem_map_of_mem
          (fun t0 => if u.pendingTasks.contains t0.id
            then { t0 with assignedUser := "", assignedUserName := "unassigned" } else t0) htm
        dsimp only at himg
        rw [if_neg (by simpa using hcont)] at himg
        exact himg
      · intro t' ht'm hta htc
        rcases mem_updTasksWhere.mp ht'm with ⟨t0, ht0m, he⟩
        by_cases hc : u.pendingTasks.contains t0.id
        · rw [if_pos hc] at he
          rw [he] at hta
          exact absurd rfl hta
        · rw [if_neg hc] at he
          rw [he] at hta htc ⊢
          rcases h6 t0 ht0m hta htc with ⟨v, hvm, hvid, hvmem⟩
          have hvne : v.id ≠ uid := by
            intro he2
            have : v = u := user_eq_of_id h1 hvm humem (by rw [he2, huid])
            subst this
            exact absurd (by simpa using hvmem) (by simpa using hc)
          refine ⟨v, ?_, hvid, hvmem⟩
          rw [List.mem_filter]
          exact ⟨hvm, by simpa using hvne⟩

theorem inv_deleteTask (s : Store) (tid : String) (hinv : StoreInv s) :
    StoreInv (deleteTask s tid).2 := by
  unfold deleteTask
  cases hf : findTask s tid with
  | none => exact hinv
  | some t =>
    dsimp only
    have htmem := findTask_some_mem hf
    have htid := findTask_some_id hf
    obtain ⟨h1, h2, h3, h4, h5, h6⟩ := hinv
    by_cases ha : t.assignedUser = ""
    · rw [if_pos ha]
      refine ⟨h1, ((List.filter_sublist _).map _).nodup h2, h3, h4, ?_, ?_⟩
      · intro v hv tid2 htid2
        rcases h5 v hv tid2 htid2 with ⟨t1, ht1m, ht1id, ht1c, ht1a⟩
        have hne : t1.id ≠ tid := by
          intro he
          have : t1 = t := task_eq_of_id h2 ht1m htmem (by rw [he, htid])
          subst this
          rw [ht1a] at ha
          exact h3 v hv ha
        refine ⟨t1, ?_, ht1id, ht1c, ht1a⟩
        rw [List.mem_filter]
        exact ⟨ht1m, by simpa using hne⟩
      · intro t' ht'm hta htc
        exact h6 t' (List.mem_of_mem_filter ht'm) hta htc
    · rw [if_neg ha]
      rw [normUser_after_pull s t.assignedUser tid h4]
      refine ⟨?_, ?_, ?_, ?_, ?_, ?_⟩
      · show (userIds (updUsers s t.assignedUser
          (fun v => { v with pendingTasks := pullList v.pendingTasks tid }))).Nodup
        rw [userIds_updUsers s t.assignedUser
          (fun v => { v with pendingTasks := pullList v.pendingTasks tid }) (fun v => rfl)]
        exact h1
      · exact ((List.filter_sublist _).map _).nodup h2
      · intro v' hv'
        rcases mem_updUsers.mp hv' with ⟨v, hvm, he⟩
        by_cases hc : (v.id == t.assignedUser) = true
        · rw [if_pos hc] at he
          rw [he]
          exact h3 v hvm
        · rw [if_neg hc] at he
          rw [he]
          exact h3 v hvm
      · intro v' hv'
        rcases mem_updUsers.mp hv' with ⟨v, hvm, he⟩
        by_cases hc : (v.id == t.assignedUser) = true
        · rw [if_pos hc] at he
          rw [he]
          exact pullList_nodup (h4 v hvm) tid
        · rw [if_neg hc] at he
          rw [he]
          exact h4 v hvm
      · intro v' hv' tid2 htid2
        rcases mem_updUsers.mp hv' with ⟨v, hvm, he⟩
        by_cases hc : (v.id == t.assignedUser) = true
        · rw [if_pos hc] at he
          rw [he] at htid2 ⊢
          rcases mem_pullList.mp htid2 with ⟨hmem, hne⟩
          rcases h5 v hvm tid2 hmem with ⟨t1, ht1m, ht1id, ht1c, ht1a⟩
          have ht1ne : t1.id ≠ tid := by rw [ht1id]; exact hne
          refine ⟨t1, ?_, ht1id, ht1c, ht1a⟩
          rw [List.mem_filter]
          exact ⟨ht1m, by simpa using ht1ne⟩
        · rw [if_neg hc] at he
          rw [he] at htid2 ⊢
          rcases h5 v hvm tid2 htid2 with ⟨t1, ht1m, ht1id, ht1c, ht1a⟩
          have ht1ne : t1.id ≠ tid := by
            intro he2
            have : t1 = t := task_eq_of_id h2 ht1m htmem (by rw [he2, htid])
            subst this
            rw [ht1a] at hc
            simp at hc
          refine ⟨t1, ?_, ht1id, ht1c, ht1a⟩
          rw [List.mem_filter]
          exact ⟨ht1m, by simpa using ht1ne⟩
      · intro t' ht'm hta htc
        have ht'mem := List.mem_of_mem_filter ht'm
        have ht'ne : t'.id ≠ tid := by
          have := (List.mem_filter.mp ht'm).2
          simpa using this
        rcases h6 t' ht'mem hta htc with ⟨v, hvm, hvid, hvmem⟩
        by_cases hc : (v.id == t.assignedUser) = true
        · refine ⟨{ v with pendingTasks := pullList v.pendingTasks tid }, ?_, hvid, ?_⟩
          · exact mem_updUsers.mpr ⟨v, hvm, by rw [if_pos hc]⟩
          · exact mem_pullList.mpr ⟨hvmem, ht'ne⟩
        · refine ⟨v, ?_, hvid, hvmem⟩
          exact mem_updUsers.mpr ⟨v, hvm, by rw [if_neg hc]⟩

theorem inv_postTaskFinish (s : Store) (b : TaskBody) (newId au aname : String)
    (hinv : StoreInv s)
    (hne : newId ≠ "")
    (hfresh : ∀ t ∈ s.tasks, t.id ≠ newId)
    (hau : au = "" ∨ ∃ udoc ∈ s.users, udoc.id = au) :
    StoreInv (postTaskFinish s b newId au aname).2 := by
  obtain ⟨h1, h2, h3, h4, h5, h6⟩ := hinv
  unfold postTaskFinish
  dsimp only
  set T : TaskR := { id := newId, name := b.name, description := b.description, deadline := b.deadline, completed := coerceCompleted b.completed, assignedUser := au, assignedUserName := aname } with hT
  have htasknd : (taskIds ⟨s.users, s.tasks ++ [T]⟩).Nodup := by
    unfold taskIds
    dsimp only
    rw [List.map_append, List.nodup_append]
    refine ⟨h2, by simp, ?_⟩
    intro x hx
    simp only [List.map_cons, List.map_nil, List.mem_singleton]
    rcases List.mem_map.mp hx with ⟨t, htm, hid⟩
    intro he
    rw [he] at hid
    exact hfresh t htm (by simpa [hT] using hid)
  by_cases hc : au ≠ "" ∧ coerceCompleted b.completed = false
  · rw [if_pos hc]
    rw [normUser_after_add ⟨s.users, s.tasks ++ [T]⟩ au newId (fun v hv => h4 v hv)]
    rcases hau with hau0 | ⟨udoc, hudm, hudid⟩
    · exact absurd hau0 hc.1
    refine ⟨?_, ?_, ?_, ?_, ?_, ?_⟩
    · show (userIds (updUsers ⟨s.users, s.tasks ++ [T]⟩ au
        (fun v => { v with pendingTasks := addToSet v.pendingTasks newId }))).Nodup
      rw [userIds_updUsers _ au
        (fun v => { v with pendingTasks := addToSet v.pendingTasks newId }) (fun v => rfl)]
      exact h1
    · exact htasknd
    · intro v' hv'
      rcases mem_updUsers.mp hv' with ⟨v, hvm, he⟩
      by_cases hcc : (v.id == au) = true
      · rw [if_pos hcc] at he
        rw [he]
        exact h3 v hvm
      · rw [if_neg hcc] at he
        rw [he]
        exact h3 v hvm
    · intro v' hv'
      rcases mem_updUsers.mp hv' with ⟨v, hvm, he⟩
      by_cases hcc : (v.id == au) = true
      · rw [if_pos hcc] at he
        rw [he]
        exact addToSet_nodup (h4 v hvm) newId
      · rw [if_neg hcc] at he
        rw [he]
        exact h4 v hvm
    · intro v' hv' tid2 htid2
      rcases mem_updUsers.mp hv' with ⟨v, hvm, he⟩
      by_cases hcc : (v.id == au) = true
      · rw [if_pos hcc] at he
        rw [he] at htid2 ⊢
        rcases mem_addToSet.mp htid2 with hmem | hnew
        · rcases h5 v hvm tid2 hmem with ⟨t1, ht1m, hx⟩
          exact ⟨t1, List.mem_append_left _ ht1m, hx⟩
        · refine ⟨T, List.mem_append_right _ (by simp), ?_, ?_, ?_⟩
          · rw [hnew, hT]
          · rw [hT]
            exact hc.2
          · rw [hT]
            show au = v.id
            have hvid := (beq_iff_eq).mp hcc
            rw [hvid]
      · rw [if_neg hcc] at he
        rw [he] at htid2 ⊢
        rcases h5 v hvm tid2 htid2 with ⟨t1, ht1m, hx⟩
        exact ⟨t1, List.mem_append_left _ ht1m, hx⟩
    · intro t' ht'm hta htc
      rcases List.mem_append.mp ht'm with hold | hnewm
      · rcases h6 t' hold hta htc with ⟨v, hvm, hvid, hvmem⟩
        by_cases hcc : (v.id == au) = true
        · refine ⟨{ v with pendingTasks := addToSet v.pendingTasks newId }, ?_, hvid, ?_⟩
          · exact mem_updUsers.mpr ⟨v, hvm, by rw [if_pos hcc]⟩
          · exact mem_addToSet.mpr (Or.inl hvmem)
        · exact ⟨v, mem_updUsers.mpr ⟨v, hvm, by rw [if_neg hcc]⟩, hvid, hvmem⟩
      · rw [List.mem_singleton.mp hnewm]
        refine ⟨{ udoc with pendingTasks := addToSet udoc.pendingTasks newId }, ?_, ?_, ?_⟩
        · exact mem_updUsers.mpr ⟨udoc, hudm, by rw [if_pos (by simp [hudid])]⟩
        · rw [hT]
          exact hudid
        · refine mem_addToSet.mpr (Or.inr ?_)
          rw [hT]
  · rw [if_neg hc]
    refine ⟨h1, htasknd, h3, h4, ?_, ?_⟩
    · intro v hv tid2 htid2
      rcases h5 v hv tid2 htid2 with ⟨t1, ht1m, hx⟩
      exact ⟨t1, List.mem_append_left _ ht1m, hx⟩
    · intro t' ht'm hta htc
      rcases List.mem_append.mp ht'm with hold | hnewm
      · rcases h6 t' hold hta htc with ⟨v, hvm, hx⟩
        exact ⟨v, hvm, hx⟩
      · exfalso
        rw [List.mem_singleton.mp hnewm] at hta htc
        rw [hT] at hta htc
        exact hc ⟨hta, htc⟩

theorem inv_postTask (s : Store) (b : TaskBody) (newId : String)
    (hinv : StoreInv s) (hne : newId ≠ "") (hfresh : ∀ t ∈ s.tasks, t.id ≠ newId) :
    StoreInv (postTask s b newId).2 := by
  unfold postTask
  split
  · exact hinv
  · split
    · exact inv_postTaskFinish s b newId "" _ hinv hne hfresh (Or.inl rfl)
    · cases hfu : findUser s b.assignedUser with
      | none => exact hinv
      | some udoc =>
        dsimp only
        split
        · exact hinv
        · exact inv_postTaskFinish s b newId b.assignedUser _ hinv hne hfresh
            (Or.inr ⟨udoc, findUser_some_mem hfu, findUser_some_id hfu⟩)

theorem updUsers_id (X : Store) (uid : String) :
    updUsers X uid (fun v => { v with pendingTasks := v.pendingTasks }) = X := by
  unfold updUsers
  have h : X.users.map
      (fun u => if u.id == uid then { u with pendingTasks := u.pendingTasks } else u)
      = X.users := by
    rw [List.map_congr_left (g := fun u => u) (fun u _ => by split <;> rfl), List.map_id']
  rw [h]

theorem updUsers_not_found (X : Store) (uid : String) (f : UserR → UserR)
    (h : ∀ v ∈ X.users, v.id ≠ uid) : updUsers X uid f = X := by
  unfold updUsers
  have he : X.users.map (fun u => if u.id == uid then f u else u) = X.users := by
    rw [List.map_congr_left (g := fun u => u)
      (fun u hu => by rw [if_neg (by simpa using h u hu)]), List.map_id']
  rw [he]

theorem resolveTaskAssignee_ok_cases (s : Store) (b : TaskBody) (au aname : String)
    (h : resolveTaskAssignee s b = .ok (au, aname)) :
    au = b.assignedUser ∧ (au = "" ∨ ∃ udoc ∈ s.users, udoc.id = au) := by
  unfold resolveTaskAssignee at h
  by_cases hb : b.assignedUser = ""
  · rw [if_pos hb] at h
    injection h with h
    have h1 : au = "" := by
      have := congrArg Prod.fst h
      exact this.symm
    exact ⟨h1.trans hb.symm, Or.inl h1⟩
  · rw [if_neg hb] at h
    cases hfu : findUser s b.assignedUser with
    | none =>
      rw [hfu] at h
      cases h
    | some udoc =>
      rw [hfu] at h
      dsimp only at h
      have hmem := findUser_some_mem hfu
      have hid := findUser_some_id hfu
      cases hn : b.assignedUserName with
      | none =>
        rw [hn] at h
        injection h with h
        have h1 : au = b.assignedUser := (congrArg Prod.fst h).symm
        exact ⟨h1, Or.inr ⟨udoc, hmem, by rw [h1]; exact hid⟩⟩
      | some n =>
        rw [hn] at h
        dsimp only at h
        by_cases hcond : lowerString n ≠ "unassigned" ∧ n ≠ udoc.name
        · rw [if_pos hcond] at h
          cases h
        · rw [if_neg hcond] at h
          injection h with h
          have h1 : au = b.assignedUser := (congrArg Prod.fst h).symm
          exact ⟨h1, Or.inr ⟨udoc, hmem, by rw [h1]; exact hid⟩⟩

theorem inv_putTaskCore (s : Store) (t : TaskR) (tid aname : String) (b : TaskBody)
    (hinv : StoreInv s) (htmem : t ∈ s.tasks) (htid : t.id = tid)
    (hud : coerceCompleted b.completed = false → b.assignedUser ≠ "" →
      ∃ udoc ∈ s.users, udoc.id = b.assignedUser) :
    StoreInv
      (updUsers
        (updUsers (updTasksWhere s (fun t0 => t0.id == tid) (taskSaveFun b aname))
          t.assignedUser
          (fun v => { v with pendingTasks :=
            (if t.assignedUser ≠ "" ∧ t.assignedUser ≠ b.assignedUser
              then pullList v.pendingTasks tid else v.pendingTasks) }))
        b.assignedUser
        (fun v => { v with pendingTasks :=
          (if coerceCompleted b.completed = true then pullList v.pendingTasks tid
            else addToSet v.pendingTasks tid) })) := by
  obtain ⟨h1, h2, h3, h4, h5, h6⟩ := hinv
  have hTmem : taskSaveFun b aname t
      ∈ (updTasksWhere s (fun t0 => t0.id == tid) (taskSaveFun b aname)).tasks := by
    apply mem_updTasksWhere.mpr
    exact ⟨t, htmem, by rw [if_pos (by simp [htid])]⟩
  refine ⟨?_, ?_, ?_, ?_, ?_, ?_⟩
  · show (userIds _).Nodup
    rw [userIds_updUsers _ b.assignedUser
      (fun v => { v with pendingTasks :=
        (if coerceCompleted b.completed = true then pullList v.pendingTasks tid
          else addToSet v.pendingTasks tid) }) (fun v => rfl)]
    rw [userIds_updUsers _ t.assignedUser
      (fun v => { v with pendingTasks :=
        (if t.assignedUser ≠ "" ∧ t.assignedUser ≠ b.assignedUser
          then pullList v.pendingTasks tid else v.pendingTasks) }) (fun v => rfl)]
    exact h1
  · show (taskIds (updTasksWhere s (fun t0 => t0.id == tid) (taskSaveFun b aname))).Nodup
    rw [taskIds_updTasksWhere s (fun t0 => t0.id == tid) (taskSaveFun b aname) (fun t0 => rfl)]
    exact h2
  · intro v'' hv''
    rcases mem_updUsers.mp hv'' with ⟨w, hw, he3⟩
    rcases mem_updUsers.mp hw with ⟨v, hv, he2⟩
    have hwid : w.id = v.id := by rw [he2]; split <;> rfl
    have hid2 : v''.id = v.id := by rw [he3]; split <;> exact hwid
    rw [hid2]
    exact h3 v hv
  · intro v'' hv''
    rcases mem_updUsers.mp hv'' with ⟨w, hw, he3⟩
    rcases mem_updUsers.mp hw with ⟨v, hv, he2⟩
    have hwpend : w.pendingTasks.Nodup := by
      rw [he2]
      split
      · show (if t.assignedUser ≠ "" ∧ t.assignedUser ≠ b.assignedUser
          then pullList v.pendingTasks tid else v.pendingTasks).Nodup
        split
        · exact pullList_nodup (h4 v hv) tid
        · exact h4 v hv
      · exact h4 v hv
    rw [he3]
    split
    · show (if coerceCompleted b.completed = true
        then pullList w.pendingTasks tid else addToSet w.pendingTasks tid).Nodup
      split
      · exact pullList_nodup hwpend tid
      · exact addToSet_nodup hwpend tid
    · exact hwpend
  · intro v'' hv'' tid2 htid2
    rcases mem_updUsers.mp hv'' with ⟨w, hw, he3⟩
    rcases mem_updUsers.mp hw with ⟨v, hv, he2⟩
    have hwid : w.id = v.id := by rw [he2]; split <;> rfl
    have hid2 : v''.id = v.id := by rw [he3]; split <;> exact hwid
    have hw_mem : ∀ x, x ∈ w.pendingTasks ↔
        (x ∈ v.pendingTasks ∧ ¬(x = tid ∧ v.id = t.assignedUser
          ∧ t.assignedUser ≠ "" ∧ t.assignedUser ≠ b.assignedUser)) := by
      intro x
      rw [he2]
      by_cases hA : (v.id == t.assignedUser) = true
      · rw [if_pos hA]
        have hA2 : v.id = t.assignedUser := beq_iff_eq.mp hA
        dsimp only
        by_cases hP : (t.assignedUser ≠ "" ∧ t.assignedUser ≠ b.assignedUser)
        · rw [if_pos hP, mem_pullList]
          constructor
          · rintro ⟨hm, hne⟩
            exact ⟨hm, fun hc => hne hc.1⟩
          · rintro ⟨hm, hnc⟩
            refine ⟨hm, fun hx => hnc ⟨hx, hA2, hP.1, hP.2⟩⟩
        · rw [if_neg hP]
          constructor
          · intro hm
            exact ⟨hm, fun hc => hP ⟨hc.2.2.1, hc.2.2.2⟩⟩
          · intro hm
            exact hm.1
      · rw [if_neg hA]
        constructor
        · intro hm
          exact ⟨hm, fun hc => hA (beq_iff_eq.mpr hc.2.1)⟩
        · intro hm
          exact hm.1
    have hv2_mem : ∀ x, x ∈ v''.pendingTasks ↔
        ((x ∈ w.pendingTasks ∧ ¬(x = tid ∧ v.id = b.assignedUser
            ∧ coerceCompleted b.completed = true))
          ∨ (x = tid ∧ v.id = b.assignedUser ∧ ¬ coerceCompleted b.completed = true)) := by
      intro x
      rw [he3]
      by_cases hB : (w.id == b.assignedUser) = true
      · rw [if_pos hB]
        have hB2 : v.id = b.assignedUser := by rw [← hwid]; exact beq_iff_eq.mp hB
        dsimp only
        by_cases hN : coerceCompleted b.completed = true
        · rw [if_pos hN, mem_pullList]
          constructor
          · rintro ⟨hm, hne⟩
            exact Or.inl ⟨hm, fun hc => hne hc.1⟩
          · rintro (⟨hm, hnc⟩ | ⟨hx, hb2, hN2⟩)
            · exact ⟨hm, fun hx => hnc ⟨hx, hB2, hN⟩⟩
            · exact absurd hN hN2
        · rw [if_neg hN, mem_addToSet]
          constructor
          · rintro (hm | hx)
            · exact Or.inl ⟨hm, fun hc => hN hc.2.2⟩
            · exact Or.inr ⟨hx, hB2, hN⟩
          · rintro (⟨hm, hnc⟩ | ⟨hx, hb2, hN2⟩)
            · exact Or.inl hm
            · exact Or.inr hx
      · rw [if_neg hB]
        have hB2 : ¬ v.id = b.assignedUser := fun hc => hB (by rw [hwid]; exact beq_iff_eq.mpr hc)
        constructor
        · intro hm
          exact Or.inl ⟨hm, fun hc => hB2 hc.2.1⟩
        · rintro (⟨hm, hnc⟩ | ⟨hx, hb2, hN2⟩)
          · exact hm
          · exact absurd hb2 hB2
    rcases (hv2_mem tid2).mp htid2 with ⟨hmw, hn2⟩ | ⟨hxeq, hb2, hnt⟩
    · rcases (hw_mem tid2).mp hmw with ⟨hmv, hn1⟩
      by_cases heq : tid2 = tid
      · subst heq
        rcases h5 v hv tid2 hmv with ⟨t1, ht1m, ht1id, ht1c, ht1a⟩
        have ht1t : t1 = t := task_eq_of_id h2 ht1m htmem (by rw [ht1id, htid])
        subst ht1t
        have hvprev : v.id = t1.assignedUser := ht1a.symm
        have hprevne : t1.assignedUser ≠ "" := by
          rw [← hvprev]
          exact h3 v hv
        have hprevau : t1.assignedUser = b.assignedUser := by
          by_contra hne2
          exact hn1 ⟨rfl, hvprev, hprevne, hne2⟩
        have hb3 : v.id = b.assignedUser := hvprev.trans hprevau
        have hncf : coerceCompleted b.completed = false := by
          rcases hx : coerceCompleted b.completed with _ | _
          · rfl
          · exact absurd (⟨rfl, hb3, hx⟩ :
              tid2 = tid2 ∧ v.id = b.assignedUser ∧ coerceCompleted b.completed = true) hn2
        refine ⟨taskSaveFun b aname t1, hTmem, ?_, hncf, ?_⟩
        · show t1.id = tid2
          rw [htid]
        · show b.assignedUser = v''.id
          rw [hid2, hb3]
      · rcases h5 v hv tid2 hmv with ⟨t1, ht1m, ht1id, ht1c, ht1a⟩
        have ht1ne : (t1.id == tid) = false := by
          simp only [beq_eq_false_iff_ne, ne_eq]
          rw [ht1id]
          exact heq
        refine ⟨t1, ?_, ht1id, ht1c, by rw [hid2]; exact ht1a⟩
        apply mem_updTasksWhere.mpr
        exact ⟨t1, ht1m, by rw [if_neg (by simp [ht1ne])]⟩
    · have hncf : coerceCompleted b.completed = false := by
        rcases hx : coerceCompleted b.completed with _ | _
        · rfl
        · exact absurd hx hnt
      refine ⟨taskSaveFun b aname t, hTmem, ?_, hncf, ?_⟩
      · show t.id = tid2
        rw [htid, hxeq]
      · show b.assignedUser = v''.id
        rw [hid2, hb2]
  · intro t'' ht''m hta htc
    rcases mem_updTasksWhere.mp ht''m with ⟨t0, ht0m, he⟩
    by_cases h0 : (t0.id == tid) = true
    · rw [if_pos h0] at he
      have ht0t : t0 = t := task_eq_of_id h2 ht0m htmem (by rw [(beq_iff_eq).mp h0, htid])
      subst ht0t
      rw [he] at hta htc ⊢
      have hta' : b.assignedUser ≠ "" := by simpa [taskSaveFun] using hta
      have htc' : coerceCompleted b.completed = false := by simpa [taskSaveFun] using htc
      rcases hud htc' hta' with ⟨udoc, hudm, hudid⟩
      set w : UserR := if udoc.id == t0.assignedUser
        then { udoc with pendingTasks :=
          (if t0.assignedUser ≠ "" ∧ t0.assignedUser ≠ b.assignedUser
            then pullList udoc.pendingTasks tid else udoc.pendingTasks) }
        else udoc with hwdef
      have hwid : w.id = udoc.id := by rw [hwdef]; split <;> rfl
      have hwB : (w.id == b.assignedUser) = true := by
        rw [hwid]
        simp [hudid]
      refine ⟨if w.id == b.assignedUser
        then { w with pendingTasks :=
          (if coerceCompleted b.completed = true then pullList w.pendingTasks tid
            else addToSet w.pendingTasks tid) }
        else w, ?_, ?_, ?_⟩
      · apply mem_updUsers.mpr
        refine ⟨w, ?_, rfl⟩
        apply mem_updUsers.mpr
        exact ⟨udoc, hudm, hwdef⟩
      · rw [if_pos hwB]
        show w.id = (taskSaveFun b aname t0).assignedUser
        rw [hwid, hudid]
        rfl
      · rw [if_pos hwB]
        show (taskSaveFun b aname t0).id ∈ _
        have hidt : (taskSaveFun b aname t0).id = tid := by
          show t0.id = tid
          exact (beq_iff_eq).mp h0
        rw [hidt]
        dsimp only
        rw [if_neg (by simp [htc'])]
        exact mem_addToSet.mpr (Or.inr rfl)
    · rw [if_neg h0] at he
      rw [he] at hta htc ⊢
      rcases h6 t0 ht0m hta htc with ⟨v, hvm, hvid, hvmem⟩
      set w : UserR := if v.id == t.assignedUser
        then { v with pendingTasks :=
          (if t.assignedUser ≠ "" ∧ t.assignedUser ≠ b.assignedUser
            then pullList v.pendingTasks tid else v.pendingTasks) }
        else v with hwdef
      have hwid : w.id = v.id := by rw [hwdef]; split <;> rfl
      have ht0ne : t0.id ≠ tid := by simpa using h0
      have hwpend : t0.id ∈ w.pendingTasks := by
        rw [hwdef]
        split
        · show t0.id ∈ (if t.assignedUser ≠ "" ∧ t.assignedUser ≠ b.assignedUser
            then pullList v.pendingTasks tid else v.pendingTasks)
          split
          · exact mem_pullList.mpr ⟨hvmem, ht0ne⟩
          · exact hvmem
        · exact hvmem
      refine ⟨if w.id == b.assignedUser
        then { w with pendingTasks :=
          (if coerceCompleted b.completed = true then pullList w.pendingTasks tid
            else addToSet w.pendingTasks tid) }
        else w, ?_, ?_, ?_⟩
      · apply mem_updUsers.mpr
        refine ⟨w, ?_, rfl⟩
        apply mem_updUsers.mpr
        exact ⟨v, hvm, hwdef⟩
      · split
        · show w.id = t0.assignedUser
          rw [hwid]
          exact hvid
        · rw [hwid]
          exact hvid
      · split
        · show t0.id ∈ (if coerceCompleted b.completed = true
            then pullList w.pendingTasks tid else addToSet w.pendingTasks tid)
          split
          · exact mem_pullList.mpr ⟨hwpend, ht0ne⟩
          · exact mem_addToSet.mpr (Or.inl hwpend)
        · exact hwpend

/-- When pending lists are duplicate-free and ids are non-empty, the
normalized task-update tail collapses to two conditional-pull/add user
map passes over the saved store. -/
theorem putTaskTail_eq_core (s : Store) (tid : String) (b : TaskBody) (aname prev : String)
    (hped : ∀ v ∈ s.users, v.pendingTasks.Nodup)
    (hne : ∀ v ∈ s.users, v.id ≠ "") :
    putTaskTail s tid b aname prev =
      updUsers
        (updUsers (updTasksWhere s (fun t0 => t0.id == tid) (taskSaveFun b aname))
          prev
          (fun v => { v with pendingTasks :=
            (if prev ≠ "" ∧ prev ≠ b.assignedUser
              then pullList v.pendingTasks tid else v.pendingTasks) }))
        b.assignedUser
        (fun v => { v with pendingTasks :=
          (if coerceCompleted b.completed = true then pullList v.pendingTasks tid
            else addToSet v.pendingTasks tid) }) := by
  have hped1 : ∀ v ∈ (updTasksWhere s (fun t0 => t0.id == tid) (taskSaveFun b aname)).users,
      v.pendingTasks.Nodup := hped
  have hne1 : ∀ v ∈ (updTasksWhere s (fun t0 => t0.id == tid) (taskSaveFun b aname)).users,
      v.id ≠ "" := hne
  have hped2 : ∀ v ∈ (updUsers (updTasksWhere s (fun t0 => t0.id == tid) (taskSaveFun b aname))
      prev (fun v => { v with pendingTasks := pullList v.pendingTasks tid })).users,
      v.pendingTasks.Nodup := by
    intro v hv
    rcases mem_updUsers.mp hv with ⟨v0, hv0, he⟩
    rw [he]
    split
    · exact pullList_nodup (hped1 v0 hv0) tid
    · exact hped1 v0 hv0
  have hne2 : ∀ v ∈ (updUsers (updTasksWhere s (fun t0 => t0.id == tid) (taskSaveFun b aname))
      prev (fun v => { v with pendingTasks := pullList v.pendingTasks tid })).users,
      v.id ≠ "" := by
    intro v hv
    rcases mem_updUsers.mp hv with ⟨v0, hv0, he⟩
    have : v.id = v0.id := by rw [he]; split <;> rfl
    rw [this]
    exact hne1 v0 hv0
  unfold putTaskTail
  dsimp only
  by_cases hau : b.assignedUser ≠ ""
  · rw [if_pos hau]
    by_cases hP : (prev ≠ "" ∧ prev ≠ b.assignedUser)
    · rw [if_pos hP, normUser_after_pull _ prev tid hped1]
      by_cases hnc : coerceCompleted b.completed = true
      · rw [if_pos hnc, normUser_after_pull _ b.assignedUser tid hped2]
        simp only [if_pos hP, if_pos hnc]
      · rw [if_neg hnc, normUser_after_add _ b.assignedUser tid hped2]
        simp only [if_pos hP, if_neg hnc]
    · rw [if_neg hP]
      by_cases hnc : coerceCompleted b.completed = true
      · rw [if_pos hnc, normUser_after_pull _ b.assignedUser tid hped1]
        simp only [if_neg hP]
        rw [updUsers_id]
        simp only [if_pos hnc]
      · rw [if_neg hnc, normUser_after_add _ b.assignedUser tid hped1]
        simp only [if_neg hP]
        rw [updUsers_id]
        simp only [if_neg hnc]
  · rw [if_neg hau]
    have haue : b.assignedUser = "" := by
      by_contra hcc
      exact hau hcc
    by_cases hP : (prev ≠ "" ∧ prev ≠ b.assignedUser)
    · rw [if_pos hP, normUser_after_pull _ prev tid hped1]
      simp only [if_pos hP]
      rw [updUsers_not_found _ b.assignedUser _
        (fun v hv => by rw [haue]; exact hne2 v hv)]
    · rw [if_neg hP]
      simp only [if_neg hP]
      rw [updUsers_id]
      rw [updUsers_not_found _ b.assignedUser _
        (fun v hv => by rw [haue]; exact hne1 v hv)]

theorem inv_putTaskTail (s : Store) (t : TaskR) (tid : String) (b : TaskBody) (aname : String)
    (hinv : StoreInv s) (htmem : t ∈ s.tasks) (htid : t.id = tid)
    (hud : coerceCompleted b.completed = false → b.assignedUser ≠ "" →
      ∃ udoc ∈ s.users, udoc.id = b.assignedUser) :
    StoreInv (putTaskTail s tid b aname t.assignedUser) := by
  obtain ⟨h1, h2, h3, h4, h5, h6⟩ := hinv
  rw [putTaskTail_eq_core s tid b aname t.assignedUser h4 h3]
  exact inv_putTaskCore s t tid aname b ⟨h1, h2, h3, h4, h5, h6⟩ htmem htid hud

theorem inv_putTask (s : Store) (tid : String) (b : TaskBody) (hinv : StoreInv s) :
    StoreInv (putTask s tid b).2 := by
  by_cases h1 : (b.name = "" || b.deadline = "") = true
  · have hs : (putTask s tid b).2 = s := by
      unfold putTask
      rw [if_pos h1]
    rw [hs]
    exact hinv
  · simp only [Bool.or_eq_true, decide_eq_true_eq, not_or] at h1
    obtain ⟨hname, hdl⟩ := h1
    cases hft : findTask s tid with
    | none =>
      have hs : (putTask s tid b).2 = s := by
        unfold putTask
        rw [if_neg (by simp [hname, hdl]), hft]
      rw [hs]
      exact hinv
    | some task =>
      by_cases hc : task.completed = true
      · have hs : (putTask s tid b).2 = s := by
          unfold putTask
          rw [if_neg (by simp [hname, hdl]), hft]
          dsimp only
          rw [hc, if_pos rfl]
        rw [hs]
        exact hinv
      · have hcf : task.completed = false := by
          rcases hx : task.completed with _ | _
          · rfl
          · exact absurd hx hc
        cases hres : resolveTaskAssignee s b with
        | error r =>
          have hs : (putTask s tid b).2 = s := by
            unfold putTask
            rw [if_neg (by simp [hname, hdl]), hft]
            dsimp only
            rw [hcf]
            simp only [Bool.false_eq_true, if_false]
            rw [hres]
          rw [hs]
          exact hinv
        | ok pr =>
          obtain ⟨au, aname⟩ := pr
          rcases resolveTaskAssignee_ok_cases s b au aname hres with ⟨hau_eq, hcase⟩
          subst hau_eq
          rw [putTask_success_eq s tid b aname hname hdl hft hcf hres]
          exact inv_putTaskTail s task tid b aname hinv (findTask_some_mem hft)
            (findTask_some_id hft) (fun _ hne => hcase.resolve_left hne)

/-- The normalizer is a no-op on a store where every pending list is
duplicate-free. -/
theorem normUser_of_users_nodup (X : Store) (uid : String)
    (h : ∀ v ∈ X.users, v.pendingTasks.Nodup) : normUser X uid = X := by
  unfold normUser normalizePendingTasksForUser
  cases hf : findUser X uid with
  | none => rfl
  | some u =>
    dsimp only
    rw [dedupFirst_eq_self_of_nodup (h u (findUser_some_mem hf)), if_pos rfl]

theorem updTasksWhere_false (X : Store) (p : TaskR → Bool) (f : TaskR → TaskR)
    (h : ∀ t ∈ X.tasks, p t = false) : updTasksWhere X p f = X := by
  unfold updTasksWhere
  have he : X.tasks.map (fun t => if p t then f t else t) = X.tasks := by
    rw [List.map_congr_left (g := fun t => t) (fun t ht => by rw [h t ht]; simp), List.map_id']
  rw [he]

/-- Whether the previous-owner cleanup loop over the referenced tasks
ts pulls the id x from the pending list of the user vid. -/
def pulledBy (uid : String) (ts : List TaskR) (vid x : String) : Bool :=
  ts.any (fun t => !t.completed && !(t.assignedUser == "") && !(t.assignedUser == uid)
    && (t.assignedUser == vid) && (x == t.id))

theorem cleanupStep_users (uid : String) (X : Store) (t : TaskR)
    (hnd : ∀ v ∈ X.users, v.pendingTasks.Nodup) :
    (cleanupStep uid X t).users = X.users.map (fun v => { v with pendingTasks :=
      (v.pendingTasks.filter (fun x => !(!t.completed && !(t.assignedUser == "")
        && !(t.assignedUser == uid) && (t.assignedUser == v.id) && (x == t.id)))) }) := by
  unfold cleanupStep
  by_cases hc : (t.completed || t.assignedUser == "" || t.assignedUser == uid) = true
  · rw [if_pos hc]
    have hz : (!t.completed && !(t.assignedUser == "") && !(t.assignedUser == uid)) = false := by
      cases h1 : t.completed <;> cases h2 : (t.assignedUser == "") <;>
        cases h3 : (t.assignedUser == uid) <;> simp_all
    rw [List.map_congr_left (g := fun v => v)
      (fun v hv => by
        have hfix : v.pendingTasks.filter (fun x => !(!t.completed && !(t.assignedUser == "")
            && !(t.assignedUser == uid) && (t.assignedUser == v.id) && (x == t.id)))
            = v.pendingTasks :=
          List.filter_eq_self.mpr (fun x hx => by simp [hz])
        dsimp only
        rw [hfix]), List.map_id']
  · rw [if_neg hc]
    have hparts : t.completed = false ∧ (t.assignedUser == "") = false
        ∧ (t.assignedUser == uid) = false := by
      cases h1 : t.completed <;> cases h2 : (t.assignedUser == "") <;>
        cases h3 : (t.assignedUser == uid) <;> simp_all
    obtain ⟨hp1, hp2, hp3⟩ := hparts
    rw [normUser_after_pull X t.assignedUser t.id hnd]
    unfold updUsers
    dsimp only
    apply List.map_congr_left
    intro v hv
    by_cases hv5 : (v.id == t.assignedUser) = true
    · rw [if_pos hv5]
      have hav : (t.assignedUser == v.id) = true :=
        beq_iff_eq.mpr (beq_iff_eq.mp hv5).symm
      have hfix : pullList v.pendingTasks t.id
          = v.pendingTasks.filter (fun x => !(!t.completed && !(t.assignedUser == "")
            && !(t.assignedUser == uid) && (t.assignedUser == v.id) && (x == t.id))) := by
        unfold pullList
        apply List.filter_congr
        intro x hx
        simp [hp1, hp2, hp3, hav, bne]
      rw [hfix]
    · rw [if_neg hv5]
      have hav : (t.assignedUser == v.id) = false := by
        rcases h : (t.assignedUser == v.id) with _ | _
        · rfl
        · exact absurd (beq_iff_eq.mpr (beq_iff_eq.mp h).symm) hv5
      have hfix : v.pendingTasks.filter (fun x => !(!t.completed && !(t.assignedUser == "")
          && !(t.assignedUser == uid) && (t.assignedUser == v.id) && (x == t.id)))
          = v.pendingTasks :=
        List.filter_eq_self.mpr (fun x hx => by simp [hav])
      rw [hfix]

theorem cleanup_foldl_tasks (uid : String) (ts : List TaskR) :
    ∀ X : Store, (ts.foldl (cleanupStep uid) X).tasks = X.tasks := by
  induction ts with
  | nil => intro X; rfl
  | cons t ts ih =>
    intro X
    rw [List.foldl_cons, ih]
    unfold cleanupStep
    split
    · rfl
    · rw [normUser_tasks]
      rfl

theorem cleanup_foldl_users (uid : String) (ts : List TaskR) :
    ∀ X : Store, (∀ v ∈ X.users, v.pendingTasks.Nodup) →
    (ts.foldl (cleanupStep uid) X).users = X.users.map (fun v => { v with pendingTasks :=
      (v.pendingTasks.filter (fun x => !(pulledBy uid ts v.id x))) }) := by
  induction ts with
  | nil =>
    intro X hnd
    rw [List.foldl_nil]
    rw [List.map_congr_left (g := fun v => v)
      (fun v hv => by
        have hfix : (fun x => !(pulledBy uid [] v.id x)) = fun x => true := by
          funext x
          simp [pulledBy]
        dsimp only
        rw [hfix, List.filter_true]), List.map_id']
  | cons t ts ih =>
    intro X hnd
    rw [List.foldl_cons]
    have hstep := cleanupStep_users uid X t hnd
    have hnd2 : ∀ v ∈ (cleanupStep uid X t).users, v.pendingTasks.Nodup := by
      rw [hstep]
      intro v hv
      rcases List.mem_map.mp hv with ⟨v0, hv0, he⟩
      rw [← he]
      exact (hnd v0 hv0).filter _
    rw [ih (cleanupStep uid X t) hnd2, hstep, List.map_map]
    apply List.map_congr_left
    intro v hv
    dsimp only [Function.comp]
    rw [List.filter_filter]
    congr 1
    apply List.filter_congr
    intro x hx
    simp only [pulledBy, List.any_cons, Bool.not_or, Bool.and_comm]

/-- The user.save write of PUT /users/:id: replace name, email and the
pending list. -/
def userSaveFun (b : UserBody) (newPending : List String) : UserR → UserR := fun v =>
  { v with name := b.name, email := b.email, pendingTasks := newPending }

theorem inv_putUserNilCore (s : Store) (uid : String) (b : UserBody) (user : UserR)
    (hinv : StoreInv s) (huser : findUser s uid = some user) :
    StoreInv (normUser (updTasksWhere (updTasksWhere
      (updUsers s uid (userSaveFun b []))
      (fun t => user.pendingTasks.contains t.id && !t.completed)
      (fun t => { t with assignedUser := "", assignedUserName := "unassigned" }))
      (fun t => t.assignedUser == uid)
      (fun t => { t with assignedUserName := b.name })) uid) := by
  obtain ⟨h1, h2, h3, h4, h5, h6⟩ := hinv
  have humem : user ∈ s.users := findUser_some_mem huser
  have huid : user.id = uid := findUser_some_id huser
  have huidne : uid ≠ "" := by
    rw [← huid]
    exact h3 user humem
  have hnd5 : ∀ v ∈ (updTasksWhere (updTasksWhere
      (updUsers s uid (userSaveFun b []))
      (fun t => user.pendingTasks.contains t.id && !t.completed)
      (fun t => { t with assignedUser := "", assignedUserName := "unassigned" }))
      (fun t => t.assignedUser == uid)
      (fun t => { t with assignedUserName := b.name })).users, v.pendingTasks.Nodup := by
    intro v hv
    have hv2 : v ∈ (updUsers s uid (userSaveFun b [])).users := hv
    rcases mem_updUsers.mp hv2 with ⟨v0, hv0, he⟩
    rw [he]
    split
    · exact List.nodup_nil
    · exact h4 v0 hv0
  rw [normUser_of_users_nodup _ uid hnd5]
  refine ⟨?_, ?_, ?_, ?_, ?_, ?_⟩
  · show (userIds (updUsers s uid (userSaveFun b []))).Nodup
    rw [userIds_updUsers s uid (userSaveFun b []) (fun v => rfl)]
    exact h1
  · rw [taskIds_updTasksWhere _ (fun t => t.assignedUser == uid)
      (fun t => { t with assignedUserName := b.name }) (fun t => rfl)]
    rw [taskIds_updTasksWhere _ (fun t => user.pendingTasks.contains t.id && !t.completed)
      (fun t => { t with assignedUser := "", assignedUserName := "unassigned" }) (fun t => rfl)]
    exact h2
  · intro v'' hv''
    have hv2 : v'' ∈ (updUsers s uid (userSaveFun b [])).users := hv''
    rcases mem_updUsers.mp hv2 with ⟨v, hv, he⟩
    have hid2 : v''.id = v.id := by rw [he]; split <;> rfl
    rw [hid2]
    exact h3 v hv
  · exact hnd5
  · intro v'' hv'' x hx
    have hv2 : v'' ∈ (updUsers s uid (userSaveFun b [])).users := hv''
    rcases mem_updUsers.mp hv2 with ⟨v, hv, he⟩
    have hid2 : v''.id = v.id := by rw [he]; split <;> rfl
    by_cases hc : (v.id == uid) = true
    · rw [he, if_pos hc] at hx
      exact absurd hx (List.not_mem_nil x)
    · rw [he, if_neg hc] at hx
      rcases h5 v hv x hx with ⟨t1, ht1m, ht1id, ht1c, ht1a⟩
      have hvne_uid : v.id ≠ uid := by
        intro hcc
        exact hc (beq_iff_eq.mpr hcc)
      have ht1nm : t1.id ∉ user.pendingTasks := by
        intro hmem
        rcases h5 user humem t1.id hmem with ⟨t2, ht2m, ht2id, ht2c, ht2a⟩
        have ht2t1 : t2 = t1 := task_eq_of_id h2 ht2m ht1m (by rw [ht2id])
        rw [ht2t1] at ht2a
        have : v.id = uid := by rw [← ht1a, ht2a, huid]
        exact hvne_uid this
      have hnp1 : (user.pendingTasks.contains t1.id && !t1.completed) = false := by
        simp [ht1nm]
      have hnp2 : (t1.assignedUser == uid) = false := by
        rcases hb2 : (t1.assignedUser == uid) with _ | _
        · rfl
        · exact absurd (by rw [← ht1a]; exact beq_iff_eq.mp hb2 : v.id = uid) hvne_uid
      have hm1 : t1 ∈ (updTasksWhere
          (updUsers s uid (userSaveFun b []))
          (fun t => user.pendingTasks.contains t.id && !t.completed)
          (fun t => { t with assignedUser := "", assignedUserName := "unassigned" })).tasks :=
        mem_updTasksWhere.mpr ⟨t1, ht1m,
          by rw [if_neg (by rw [hnp1]; exact Bool.false_ne_true)]⟩
      refine ⟨t1, ?_, ht1id, ht1c, by rw [hid2]; exact ht1a⟩
      exact mem_updTasksWhere.mpr ⟨t1, hm1,
        by rw [if_neg (by rw [hnp2]; exact Bool.false_ne_true)]⟩
  · intro t'' ht''m hta htc
    rcases mem_updTasksWhere.mp ht''m with ⟨ta, hta1, he5⟩
    rcases mem_updTasksWhere.mp hta1 with ⟨t0, ht0m, he4⟩
    by_cases hc4 : (user.pendingTasks.contains t0.id && !t0.completed) = true
    · rw [if_pos hc4] at he4
      have hzero : t''.assignedUser = "" := by
        rw [he5]
        split
        · show ta.assignedUser = ""
          rw [he4]
        · rw [he4]
      exact absurd hzero hta
    · rw [if_neg hc4] at he4
      subst he4
      by_cases hc5 : (ta.assignedUser == uid) = true
      · rw [if_pos hc5] at he5
        have htaU : ta.assignedUser = uid := beq_iff_eq.mp hc5
        rw [he5] at htc
        have ht0c : ta.completed = false := htc
        rcases h6 ta ht0m (by rw [htaU]; exact huidne) ht0c with ⟨u, hum, huid2, humem2⟩
        have huu : u = user := user_eq_of_id h1 hum humem (by rw [huid2, htaU, huid])
        rw [huu] at humem2
        have hcontra : (user.pendingTasks.contains ta.id && !ta.completed) = true := by
          simp [humem2, ht0c]
        exact absurd hcontra hc4
      · rw [if_neg hc5] at he5
        subst he5
        rcases h6 t'' ht0m hta htc with ⟨u, hum, huid2, humem2⟩
        have hvne : u.id ≠ uid := by
          intro hcc
          exact hc5 (beq_iff_eq.mpr (by rw [← huid2]; exact hcc))
        refine ⟨if u.id == uid then userSaveFun b [] u else u, ?_, ?_, ?_⟩
        · exact mem_updUsers.mpr ⟨u, hum, rfl⟩
        · rw [if_neg (by simp [hvne])]
          exact huid2
        · rw [if_neg (by simp [hvne])]
          exact humem2

theorem inv_putUserPendCore (s : Store) (uid : String) (b : UserBody) (user : UserR)
    (newPending incomplete removed : List String) (tasks2 : List TaskR)
    (hinv : StoreInv s) (huser : findUser s uid = some user)
    (hnp : newPending.Nodup)
    (hex : ∀ x ∈ newPending, ∃ t ∈ s.tasks, t.id = x ∧ t.completed = false)
    (ht2 : tasks2 = s.tasks.filter (fun t => newPending.contains t.id))
    (hinc : incomplete = tasks2.map (fun t => t.id))
    (hrem : removed = user.pendingTasks.filter (fun x => !(newPending.contains x))) :
    StoreInv (normUser (updTasksWhere (updTasksWhere
      (updUsers
        (updTasksWhere (tasks2.foldl (cleanupStep uid) (updUsers s uid (userSaveFun b newPending)))
          (fun t => incomplete.contains t.id)
          (fun t => { t with assignedUser := uid, assignedUserName := b.name }))
        uid (fun v => { v with pendingTasks := incomplete }))
      (fun t => removed.contains t.id && !t.completed)
      (fun t => { t with assignedUser := "", assignedUserName := "unassigned" }))
      (fun t => t.assignedUser == uid)
      (fun t => { t with assignedUserName := b.name })) uid) := by
  obtain ⟨h1, h2, h3, h4, h5, h6⟩ := hinv
  have humem : user ∈ s.users := findUser_some_mem huser
  have huid : user.id = uid := findUser_some_id huser
  have huidne : uid ≠ "" := by
    rw [← huid]
    exact h3 user humem
  have hnc : ∀ t ∈ s.tasks, t.id ∈ newPending → t.completed = false := by
    intro t htm hmem
    rcases hex t.id hmem with ⟨t', ht'm, ht'id, ht'c⟩
    have he : t' = t := task_eq_of_id h2 ht'm htm ht'id
    rw [← he]
    exact ht'c
  have hIiff : ∀ x, x ∈ incomplete ↔ x ∈ newPending := by
    intro x
    rw [hinc, ht2]
    constructor
    · intro hx
      rcases List.mem_map.mp hx with ⟨t, htm, hid⟩
      rcases List.mem_filter.mp htm with ⟨_, hcont⟩
      rw [← hid]
      simpa using hcont
    · intro hx
      rcases hex x hx with ⟨t, htm, hid, _⟩
      exact List.mem_map.mpr ⟨t, List.mem_filter.mpr ⟨htm, by simp [hid, hx]⟩, hid⟩
  have hInodup : incomplete.Nodup := by
    rw [hinc, ht2]
    have h2' : (s.tasks.map (fun t => t.id)).Nodup := h2
    exact h2'.sublist ((List.filter_sublist _).map _)
  have hnd1 : ∀ v ∈ (updUsers s uid (userSaveFun b newPending)).users,
      v.pendingTasks.Nodup := by
    intro v hv
    rcases mem_updUsers.mp hv with ⟨v0, hv0, he⟩
    rw [he]
    split
    · exact hnp
    · exact h4 v0 hv0
  have hfoldU := cleanup_foldl_users uid tasks2 (updUsers s uid (userSaveFun b newPending)) hnd1
  have hfoldT := cleanup_foldl_tasks uid tasks2 (updUsers s uid (userSaveFun b newPending))
  have hnd5 : ∀ v'' ∈ (updTasksWhere (updTasksWhere
      (updUsers
        (updTasksWhere (tasks2.foldl (cleanupStep uid) (updUsers s uid (userSaveFun b newPending)))
          (fun t => incomplete.contains t.id)
          (fun t => { t with assignedUser := uid, assignedUserName := b.name }))
        uid (fun v => { v with pendingTasks := incomplete }))
      (fun t => removed.contains t.id && !t.completed)
      (fun t => { t with assignedUser := "", assignedUserName := "unassigned" }))
      (fun t => t.assignedUser == uid)
      (fun t => { t with assignedUserName := b.name })).users, v''.pendingTasks.Nodup := by
    intro v'' hv''
    have hv2 : v'' ∈ (updUsers
        (updTasksWhere (tasks2.foldl (cleanupStep uid) (updUsers s uid (userSaveFun b newPending)))
          (fun t => incomplete.contains t.id)
          (fun t => { t with assignedUser := uid, assignedUserName := b.name }))
        uid (fun v => { v with pendingTasks := incomplete })).users := hv''
    rcases mem_updUsers.mp hv2 with ⟨w2, hw2, he3⟩
    have hw2' : w2 ∈ (tasks2.foldl (cleanupStep uid)
        (updUsers s uid (userSaveFun b newPending))).users := hw2
    rw [hfoldU] at hw2'
    rcases List.mem_map.mp hw2' with ⟨w1, hw1, he2⟩
    rcases mem_updUsers.mp hw1 with ⟨v, hv, he1⟩
    have hw1nd : w1.pendingTasks.Nodup := by
      rw [he1]
      split
      · exact hnp
      · exact h4 v hv
    rw [he3]
    split
    · exact hInodup
    · rw [← he2]
      exact hw1nd.filter _
  rw [normUser_of_users_nodup _ uid hnd5]
  refine ⟨?_, ?_, ?_, ?_, ?_, ?_⟩
  · show (userIds (updUsers
      (updTasksWhere (tasks2.foldl (cleanupStep uid) (updUsers s uid (userSaveFun b newPending)))
        (fun t => incomplete.contains t.id)
        (fun t => { t with assignedUser := uid, assignedUserName := b.name }))
      uid (fun v => { v with pendingTasks := incomplete }))).Nodup
    rw [userIds_updUsers _ uid (fun v => { v with pendingTasks := incomplete }) (fun v => rfl)]
    show ((tasks2.foldl (cleanupStep uid) (updUsers s uid (userSaveFun b newPending))).users.map
      (fun u => u.id)).Nodup
    rw [hfoldU, List.map_map]
    have hcomp : ((fun (u : UserR) => u.id) ∘ (fun v => { v with pendingTasks :=
        (v.pendingTasks.filter (fun x => !(pulledBy uid tasks2 v.id x))) }))
        = fun (u : UserR) => u.id := by
      funext v
      rfl
    rw [hcomp]
    show (userIds (updUsers s uid (userSaveFun b newPending))).Nodup
    rw [userIds_updUsers s uid (userSaveFun b newPending) (fun v => rfl)]
    exact h1
  · rw [taskIds_updTasksWhere _ (fun t => t.assignedUser == uid)
      (fun t => { t with assignedUserName := b.name }) (fun t => rfl)]
    rw [taskIds_updTasksWhere _ (fun t => removed.contains t.id && !t.completed)
      (fun t => { t with assignedUser := "", assignedUserName := "unassigned" }) (fun t => rfl)]
    show (taskIds (updTasksWhere (tasks2.foldl (cleanupStep uid)
      (updUsers s uid (userSaveFun b newPending)))
      (fun t => incomplete.contains t.id)
      (fun t => { t with assignedUser := uid, assignedUserName := b.name }))).Nodup
    rw [taskIds_updTasksWhere _ (fun t => incomplete.contains t.id)
      (fun t => { t with assignedUser := uid, assignedUserName := b.name }) (fun t => rfl)]
    show ((tasks2.foldl (cleanupStep uid)
      (updUsers s uid (userSaveFun b newPending))).tasks.map (fun t => t.id)).Nodup
    rw [hfoldT]
    exact h2
  · intro v'' hv''
    have hv2 : v'' ∈ (updUsers
        (updTasksWhere (tasks2.foldl (cleanupStep uid) (updUsers s uid (userSaveFun b newPending)))
          (fun t => incomplete.contains t.id)
          (fun t => { t with assignedUser := uid, assignedUserName := b.name }))
        uid (fun v => { v with pendingTasks := incomplete })).users := hv''
    rcases mem_updUsers.mp hv2 with ⟨w2, hw2, he3⟩
    have hw2' : w2 ∈ (tasks2.foldl (cleanupStep uid)
        (updUsers s uid (userSaveFun b newPending))).users := hw2
    rw [hfoldU] at hw2'
    rcases List.mem_map.mp hw2' with ⟨w1, hw1, he2⟩
    rcases mem_updUsers.mp hw1 with ⟨v, hv, he1⟩
    have hw1id : w1.id = v.id := by rw [he1]; split <;> rfl
    have hw2id : w2.id = v.id := by rw [← he2]; exact hw1id
    have hid2 : v''.id = v.id := by rw [he3]; split <;> exact hw2id
    rw [hid2]
    exact h3 v hv
  · exact hnd5
  · intro v'' hv'' x hx
    have hv2 : v'' ∈ (updUsers
        (updTasksWhere (tasks2.foldl (cleanupStep uid) (updUsers s uid (userSaveFun b newPending)))
          (fun t => incomplete.contains t.id)
          (fun t => { t with assignedUser := uid, assignedUserName := b.name }))
        uid (fun v => { v with pendingTasks := incomplete })).users := hv''
    rcases mem_updUsers.mp hv2 with ⟨w2, hw2, he3⟩
    have hw2' : w2 ∈ (tasks2.foldl (cleanupStep uid)
        (updUsers s uid (userSaveFun b newPending))).users := hw2
    rw [hfoldU] at hw2'
    rcases List.mem_map.mp hw2' with ⟨w1, hw1, he2⟩
    rcases mem_updUsers.mp hw1 with ⟨v, hv, he1⟩
    have hw1id : w1.id = v.id := by rw [he1]; split <;> rfl
    have hw2id : w2.id = v.id := by rw [← he2]; exact hw1id
    have hid2 : v''.id = v.id := by rw [he3]; split <;> exact hw2id
    by_cases hA : (v.id == uid) = true
    · have hw2uid : (w2.id == uid) = true := by rw [hw2id]; exact hA
      have hvid : v.id = uid := beq_iff_eq.mp hA
      rw [he3, if_pos hw2uid] at hx
      have hxI : x ∈ incomplete := hx
      have hxI2 := hxI
      rw [hinc] at hxI2
      rcases List.mem_map.mp hxI2 with ⟨t, htm2, hid⟩
      have htm : t ∈ s.tasks := by
        rw [ht2] at htm2
        exact (List.mem_filter.mp htm2).1
      have htnp : t.id ∈ newPending := by
        rw [hid]
        exact (hIiff x).mp hxI
      have htc : t.completed = false := hnc t htm htnp
      have hm2 : t ∈ (tasks2.foldl (cleanupStep uid)
          (updUsers s uid (userSaveFun b newPending))).tasks := by
        rw [hfoldT]
        exact htm
      have hpI : (incomplete.contains t.id) = true := by
        simp [(hIiff t.id).mpr htnp]
      have hT3 : ({ t with assignedUser := uid, assignedUserName := b.name } : TaskR)
          ∈ (updTasksWhere (tasks2.foldl (cleanupStep uid)
            (updUsers s uid (userSaveFun b newPending)))
            (fun t => incomplete.contains t.id)
            (fun t => { t with assignedUser := uid, assignedUserName := b.name })).tasks :=
        mem_updTasksWhere.mpr ⟨t, hm2, by rw [if_pos hpI]⟩
      have hnrem : t.id ∉ removed := by
        rw [hrem]
        simp [htnp]
      have hT4 : ({ t with assignedUser := uid, assignedUserName := b.name } : TaskR)
          ∈ (updTasksWhere (updUsers
            (updTasksWhere (tasks2.foldl (cleanupStep uid)
              (updUsers s uid (userSaveFun b newPending)))
              (fun t => incomplete.contains t.id)
              (fun t => { t with assignedUser := uid, assignedUserName := b.name }))
            uid (fun v => { v with pendingTasks := incomplete }))
            (fun t => removed.contains t.id && !t.completed)
            (fun t => { t with assignedUser := "", assignedUserName := "unassigned" })).tasks :=
        mem_updTasksWhere.mpr ⟨_, hT3, by rw [if_neg (by simp [hnrem])]⟩
      refine ⟨{ t with assignedUser := uid, assignedUserName := b.name }, ?_, ?_, htc, ?_⟩
      · exact mem_updTasksWhere.mpr ⟨_, hT4, by rw [if_pos (by simp)]⟩
      · show t.id = x
        exact hid
      · show uid = v''.id
        rw [hid2, hvid]
    · have hvne : v.id ≠ uid := fun hcc => hA (beq_iff_eq.mpr hcc)
      have hw2ne : (w2.id == uid) = false := by
        rw [hw2id]
        exact beq_eq_false_iff_ne.mpr hvne
      rw [he3, if_neg (by rw [hw2ne]; exact Bool.false_ne_true)] at hx
      rw [if_neg hA] at he1
      rw [← he2] at hx
      have hx2 : x ∈ w1.pendingTasks.filter (fun y => !(pulledBy uid tasks2 w1.id y)) := hx
      rw [he1] at hx2
      rcases List.mem_filter.mp hx2 with ⟨hxv, hpull⟩
      rcases h5 v hv x hxv with ⟨t1, ht1m, ht1id, ht1c, ht1a⟩
      have ht1np : t1.id ∉ newPending := by
        intro hmem
        have ht1t2 : t1 ∈ tasks2 := by
          rw [ht2]
          exact List.mem_filter.mpr ⟨ht1m, by simp [hmem]⟩
        have hpb : pulledBy uid tasks2 v.id x = true := by
          refine List.any_eq_true.mpr ⟨t1, ht1t2, ?_⟩
          simp [ht1c, ht1a, ht1id, h3 v hv, hvne]
        rw [hpb] at hpull
        simp at hpull
      have hnI : (incomplete.contains t1.id) = false := by
        have hni : t1.id ∉ incomplete := fun hmem => ht1np ((hIiff t1.id).mp hmem)
        simp [hni]
      have hnrem : ¬((removed.contains t1.id && !t1.completed) = true) := by
        intro hcc
        have h1r : t1.id ∈ removed := by
          rw [Bool.and_eq_true] at hcc
          simpa using hcc.1
        rw [hrem] at h1r
        have hmemprev : t1.id ∈ user.pendingTasks := (List.mem_filter.mp h1r).1
        rcases h5 user humem t1.id hmemprev with ⟨t2, ht2m, ht2id, _, ht2a⟩
        have ht21 : t2 = t1 := task_eq_of_id h2 ht2m ht1m (by rw [ht2id])
        rw [ht21] at ht2a
        exact hvne (by rw [← ht1a, ht2a, huid])
      have hn5 : (t1.assignedUser == uid) = false := by
        rcases hb2 : (t1.assignedUser == uid) with _ | _
        · rfl
        · exact absurd (by rw [← ht1a]; exact beq_iff_eq.mp hb2 : v.id = uid) hvne
      have hm2 : t1 ∈ (tasks2.foldl (cleanupStep uid)
          (updUsers s uid (userSaveFun b newPending))).tasks := by
        rw [hfoldT]
        exact ht1m
      have hm3 : t1 ∈ (updTasksWhere (tasks2.foldl (cleanupStep uid)
          (updUsers s uid (userSaveFun b newPending)))
          (fun t => incomplete.contains t.id)
          (fun t => { t with assignedUser := uid, assignedUserName := b.name })).tasks :=
        mem_updTasksWhere.mpr ⟨t1, hm2, by rw [if_neg (by rw [hnI]; exact Bool.false_ne_true)]⟩
      have hm4 : t1 ∈ (updTasksWhere (updUsers
          (updTasksWhere (tasks2.foldl (cleanupStep uid)
            (updUsers s uid (userSaveFun b newPending)))
            (fun t => incomplete.contains t.id)
            (fun t => { t with assignedUser := uid, assignedUserName := b.name }))
          uid (fun v => { v with pendingTasks := incomplete }))
          (fun t => removed.contains t.id && !t.completed)
          (fun t => { t with assignedUser := "", assignedUserName := "unassigned" })).tasks :=
        mem_updTasksWhere.mpr ⟨t1, hm3, by rw [if_neg hnrem]⟩
      refine ⟨t1, ?_, ht1id, ht1c, by rw [hid2]; exact ht1a⟩
      exact mem_updTasksWhere.mpr ⟨t1, hm4,
        by rw [if_neg (by rw [hn5]; exact Bool.false_ne_true)]⟩
  · intro t'' ht''m hta htc
    rcases mem_updTasksWhere.mp ht''m with ⟨t4, ht4m, he5⟩
    rcases mem_updTasksWhere.mp ht4m with ⟨t3, ht3m, he4⟩
    have ht3m' : t3 ∈ (updTasksWhere (tasks2.foldl (cleanupStep uid)
        (updUsers s uid (userSaveFun b newPending)))
        (fun t => incomplete.contains t.id)
        (fun t => { t with assignedUser := uid, assignedUserName := b.name })).tasks := ht3m
    rcases mem_updTasksWhere.mp ht3m' with ⟨t0, ht0m2, he3t⟩
    have ht0m : t0 ∈ s.tasks := by
      rw [hfoldT] at ht0m2
      exact ht0m2
    by_cases hcI : (incomplete.contains t0.id) = true
    · rw [if_pos hcI] at he3t
      have ht0inc : t0.id ∈ incomplete := by simpa using hcI
      have ht0np : t0.id ∈ newPending := (hIiff t0.id).mp ht0inc
      have hnrem4 : ¬((removed.contains t3.id && !t3.completed) = true) := by
        intro hcc
        have h1r : t3.id ∈ removed := by
          rw [Bool.and_eq_true] at hcc
          simpa using hcc.1
        rw [hrem] at h1r
        have hnp2 := (List.mem_filter.mp h1r).2
        rw [he3t] at hnp2
        simp [ht0np] at hnp2
      rw [if_neg hnrem4] at he4
      have hc5 : (t4.assignedUser == uid) = true := by
        rw [he4, he3t]
        simp
      rw [if_pos hc5] at he5
      have hw1um : userSaveFun b newPending user
          ∈ (updUsers s uid (userSaveFun b newPending)).users :=
        mem_updUsers.mpr ⟨user, humem, by rw [if_pos (by simp [huid])]⟩
      have hw2um : ({ userSaveFun b newPending user with pendingTasks :=
          ((userSaveFun b newPending user).pendingTasks.filter
            (fun x => !(pulledBy uid tasks2 (userSaveFun b newPending user).id x))) } : UserR)
          ∈ (tasks2.foldl (cleanupStep uid)
            (updUsers s uid (userSaveFun b newPending))).users := by
        rw [hfoldU]
        exact List.mem_map.mpr ⟨userSaveFun b newPending user, hw1um, rfl⟩
      have hw2uideq : ({ userSaveFun b newPending user with pendingTasks :=
          ((userSaveFun b newPending user).pendingTasks.filter
            (fun x => !(pulledBy uid tasks2 (userSaveFun b newPending user).id x))) } : UserR).id
          = uid := huid
      have hfinm : ({ { userSaveFun b newPending user with pendingTasks :=
          ((userSaveFun b newPending user).pendingTasks.filter
            (fun x => !(pulledBy uid tasks2 (userSaveFun b newPending user).id x))) }
            with pendingTasks := incomplete } : UserR)
          ∈ (updUsers
            (updTasksWhere (tasks2.foldl (cleanupStep uid)
              (updUsers s uid (userSaveFun b newPending)))
              (fun t => incomplete.contains t.id)
              (fun t => { t with assignedUser := uid, assignedUserName := b.name }))
            uid (fun v => { v with pendingTasks := incomplete })).users :=
        mem_updUsers.mpr ⟨_, hw2um, by rw [if_pos (beq_iff_eq.mpr hw2uideq)]⟩
      refine ⟨_, hfinm, ?_, ?_⟩
      · show ({ userSaveFun b newPending user with pendingTasks :=
          ((userSaveFun b newPending user).pendingTasks.filter
            (fun x => !(pulledBy uid tasks2 (userSaveFun b newPending user).id x))) } : UserR).id
          = t''.assignedUser
        rw [hw2uideq, he5, he4, he3t]
      · show t''.id ∈ incomplete
        rw [he5, he4, he3t]
        exact ht0inc
    · rw [if_neg hcI] at he3t
      rw [he3t] at he4
      by_cases hc4 : (removed.contains t0.id && !t0.completed) = true
      · rw [if_pos hc4] at he4
        have hcz : (t4.assignedUser == uid) = false := by
          rw [he4]
          exact beq_eq_false_iff_ne.mpr (fun h => huidne h.symm)
        rw [if_neg (by rw [hcz]; exact Bool.false_ne_true)] at he5
        rw [he5, he4] at hta
        exact absurd rfl hta
      · rw [if_neg hc4] at he4
        rw [he4] at he5
        by_cases hc5 : (t0.assignedUser == uid) = true
        · rw [if_pos hc5] at he5
          have ht0c : t0.completed = false := by rw [he5] at htc; exact htc
          have ht0aU : t0.assignedUser = uid := beq_iff_eq.mp hc5
          rcases h6 t0 ht0m (by rw [ht0aU]; exact huidne) ht0c with ⟨u, hum, huid2, humem2⟩
          have huu : u = user := user_eq_of_id h1 hum humem (by rw [huid2, ht0aU, huid])
          rw [huu] at humem2
          have ht0nnp : t0.id ∉ newPending := by
            intro hmem
            exact hcI (by simp [(hIiff t0.id).mpr hmem])
          have hcontr : (removed.contains t0.id && !t0.completed) = true := by
            rw [hrem]
            simp [List.mem_filter, humem2, ht0nnp, ht0c]
          exact absurd hcontr hc4
        · rw [if_neg hc5] at he5
          rcases h6 t0 ht0m (by rw [he5] at hta; exact hta) (by rw [he5] at htc; exact htc)
            with ⟨u, hum, huid2, humem2⟩
          have hvne : u.id ≠ uid := by
            intro hcc
            exact hc5 (beq_iff_eq.mpr (by rw [← huid2]; exact hcc))
          have hw1um : u ∈ (updUsers s uid (userSaveFun b newPending)).users :=
            mem_updUsers.mpr ⟨u, hum,
              by rw [if_neg (fun hcc => hvne (beq_iff_eq.mp hcc))]⟩
          have hw2um : ({ u with pendingTasks :=
              (u.pendingTasks.filter (fun x => !(pulledBy uid tasks2 u.id x))) } : UserR)
              ∈ (tasks2.foldl (cleanupStep uid)
                (updUsers s uid (userSaveFun b newPending))).users := by
            rw [hfoldU]
            exact List.mem_map.mpr ⟨u, hw1um, rfl⟩
          have hw2ne : (({ u with pendingTasks :=
              (u.pendingTasks.filter (fun x => !(pulledBy uid tasks2 u.id x))) } : UserR).id
              == uid) = false :=
            beq_eq_false_iff_ne.mpr hvne
          have hfinm : ({ u with pendingTasks :=
              (u.pendingTasks.filter (fun x => !(pulledBy uid tasks2 u.id x))) } : UserR)
              ∈ (updUsers
                (updTasksWhere (tasks2.foldl (cleanupStep uid)
                  (updUsers s uid (userSaveFun b newPending)))
                  (fun t => incomplete.contains t.id)
                  (fun t => { t with assignedUser := uid, assignedUserName := b.name }))
                uid (fun v => { v with pendingTasks := incomplete })).users :=
            mem_updUsers.mpr ⟨_, hw2um,
              by rw [if_neg (by rw [hw2ne]; exact Bool.false_ne_true)]⟩
          refine ⟨_, hfinm, ?_, ?_⟩
          · show u.id = t''.assignedUser
            rw [he5]
            exact huid2
          · show t''.id ∈ (u.pendingTasks.filter (fun x => !(pulledBy uid tasks2 u.id x)))
            rw [he5]
            apply List.mem_filter.mpr
            refine ⟨humem2, ?_⟩
            have hpbf : pulledBy uid tasks2 u.id t0.id = false := by
              rcases hb2 : pulledBy uid tasks2 u.id t0.id with _ | _
              · rfl
              · exfalso
                rcases List.any_eq_true.mp hb2 with ⟨t, htmem2, hcond⟩
                have htid : t.id = t0.id := by
                  rw [Bool.and_eq_true] at hcond
                  exact (beq_iff_eq.mp hcond.2).symm
                have htmem : t ∈ s.tasks := by
                  rw [ht2] at htmem2
                  exact (List.mem_filter.mp htmem2).1
                have htt0 : t = t0 := task_eq_of_id h2 htmem ht0m htid
                rw [htt0, ht2] at htmem2
                have ht0np2 : t0.id ∈ newPending := by
                  simpa using (List.mem_filter.mp htmem2).2
                exact hcI (by simp [(hIiff t0.id).mpr ht0np2])
            rw [hpbf]
            rfl

set_option maxHeartbeats 4000000 in
theorem inv_putUserCascade (s : Store) (uid : String) (b : UserBody) (user : UserR)
    (newPending : List String)
    (hinv : StoreInv s) (huser : findUser s uid = some user)
    (hnp : newPending.Nodup)
    (hex : ∀ x ∈ newPending, ∃ t ∈ s.tasks, t.id = x ∧ t.completed = false) :
    StoreInv (putUserCascade s uid b user.pendingTasks newPending) := by
  obtain ⟨h1, h2, h3, h4, h5, h6⟩ := hinv
  by_cases hnew : newPending = []
  · subst hnew
    unfold putUserCascade
    dsimp only
    rw [if_pos (rfl : ([] : List String) = [])]
    have hrem : user.pendingTasks.filter (fun x => !(([] : List String).contains x))
        = user.pendingTasks := by
      simp
    rw [hrem]
    by_cases hprev : user.pendingTasks = []
    · rw [if_pos hprev]
      have hcore := inv_putUserNilCore s uid b user ⟨h1, h2, h3, h4, h5, h6⟩ huser
      rw [updTasksWhere_false (updUsers s uid (userSaveFun b []))
        (fun t => user.pendingTasks.contains t.id && !t.completed)
        (fun t => { t with assignedUser := "", assignedUserName := "unassigned" })
        (fun t ht => by rw [hprev]; simp)] at hcore
      exact hcore
    · rw [if_neg hprev]
      exact inv_putUserNilCore s uid b user ⟨h1, h2, h3, h4, h5, h6⟩ huser
  · unfold putUserCascade
    dsimp only
    rw [if_neg hnew]
    have htasks1 :
        (updUsers s uid
          (fun v => { v with name := b.name, email := b.email, pendingTasks := newPending })).tasks
        = s.tasks := rfl
    rw [htasks1]
    have hnc : ∀ t ∈ s.tasks, t.id ∈ newPending → t.completed = false := by
      intro t htm hmem
      rcases hex t.id hmem with ⟨t', ht'm, ht'id, ht'c⟩
      have he : t' = t := task_eq_of_id h2 ht'm htm ht'id
      rw [← he]
      exact ht'c
    have hincfilter : (s.tasks.filter (fun t => newPending.contains t.id)).filter
        (fun t => !t.completed) = s.tasks.filter (fun t => newPending.contains t.id) := by
      rw [List.filter_eq_self]
      intro t ht
      rcases List.mem_filter.mp ht with ⟨htmem, hcont⟩
      have hmem : t.id ∈ newPending := by simpa using hcont
      simp [hnc t htmem hmem]
    rw [hincfilter]
    have hincne : (s.tasks.filter (fun t => newPending.contains t.id)).map
        (fun t => t.id) ≠ [] := by
      rcases List.exists_mem_of_ne_nil newPending hnew with ⟨tid0, h0⟩
      rcases hex tid0 h0 with ⟨t0, ht0mem, ht0id, _⟩
      have hmem2 : t0 ∈ s.tasks.filter (fun t => newPending.contains t.id) :=
        List.mem_filter.mpr ⟨ht0mem, by simp [ht0id, h0]⟩
      intro he
      have hz := List.map_eq_nil_iff.mp he
      rw [hz] at hmem2
      cases hmem2
    rw [if_neg hincne]
    by_cases hrem0 : user.pendingTasks.filter (fun x => !(newPending.contains x)) = []
    · rw [if_pos hrem0]
      have hcore := inv_putUserPendCore s uid b user newPending
        ((s.tasks.filter (fun t => newPending.contains t.id)).map (fun t => t.id))
        (user.pendingTasks.filter (fun x => !(newPending.contains x)))
        (s.tasks.filter (fun t => newPending.contains t.id))
        ⟨h1, h2, h3, h4, h5, h6⟩ huser hnp hex rfl rfl rfl
      rw [updTasksWhere_false
        (updUsers
          (updTasksWhere ((s.tasks.filter (fun t => newPending.contains t.id)).foldl
            (cleanupStep uid) (updUsers s uid (userSaveFun b newPending)))
            (fun t => ((s.tasks.filter (fun t0 => newPending.contains t0.id)).map
              (fun t0 => t0.id)).contains t.id)
            (fun t => { t with assignedUser := uid, assignedUserName := b.name }))
          uid (fun v => { v with pendingTasks :=
            ((s.tasks.filter (fun t0 => newPending.contains t0.id)).map (fun t0 => t0.id)) }))
        (fun t => (user.pendingTasks.filter (fun x => !(newPending.contains x))).contains t.id
          && !t.completed)
        (fun t => { t with assignedUser := "", assignedUserName := "unassigned" })
        (fun t ht => by rw [hrem0]; simp)] at hcore
      unfold userSaveFun at hcore
      exact hcore
    · rw [if_neg hrem0]
      have hcore := inv_putUserPendCore s uid b user newPending
        ((s.tasks.filter (fun t => newPending.contains t.id)).map (fun t => t.id))
        (user.pendingTasks.filter (fun x => !(newPending.contains x)))
        (s.tasks.filter (fun t => newPending.contains t.id))
        ⟨h1, h2, h3, h4, h5, h6⟩ huser hnp hex rfl rfl rfl
      unfold userSaveFun at hcore
      exact hcore

theorem inv_putUser (s : Store) (uid : String) (b : UserBody) (hinv : StoreInv s) :
    StoreInv (putUser s uid b).2 := by
  unfold putUser
  split
  · exact hinv
  · split
    · exact hinv
    · cases hfu : findUser s uid with
      | none => exact hinv
      | some user =>
        dsimp only
        cases hpt : b.pendingTasks with
        | absent =>
          dsimp only
          rw [if_neg (by simp)]
          rw [if_neg (by simp)]
          split
          · exact hinv
          · exact inv_putUserCascade s uid b user [] hinv hfu List.nodup_nil
              (fun x hx => absurd hx (List.not_mem_nil x))
        | notAnArray =>
          dsimp only
          rw [if_neg (by simp)]
          rw [if_neg (by simp)]
          split
          · exact hinv
          · exact inv_putUserCascade s uid b user [] hinv hfu List.nodup_nil
              (fun x hx => absurd hx (List.not_mem_nil x))
        | arr l =>
          dsimp only
          split
          · exact hinv
          · split
            · exact hinv
            · split
              · exact hinv
              · rename_i hmiss hcomp hmail
                have hnp : (dedupFirst l).Nodup := dedupFirst_nodup l
                have hex : ∀ x ∈ dedupFirst l,
                    ∃ t ∈ s.tasks, t.id = x ∧ t.completed = false := by
                  intro x hx
                  have hnenil : dedupFirst l ≠ [] := by
                    intro hz
                    rw [hz] at hx
                    cases hx
                  have hxf : x ∈ (s.tasks.filter
                      (fun t => (dedupFirst l).contains t.id)).map (fun t => t.id) := by
                    by_contra hxn
                    have hmm : (dedupFirst l).filter (fun tid0 =>
                        !(((s.tasks.filter (fun t => (dedupFirst l).contains t.id)).map
                          (fun t => t.id)).contains tid0)) ≠ [] := by
                      intro hz
                      have hxin : x ∈ (dedupFirst l).filter (fun tid0 =>
                          !(((s.tasks.filter (fun t => (dedupFirst l).contains t.id)).map
                            (fun t => t.id)).contains tid0)) :=
                        List.mem_filter.mpr ⟨hx, by simpa using hxn⟩
                      rw [hz] at hxin
                      cases hxin
                    exact hmiss ⟨hnenil, hmm⟩
                  rcases List.mem_map.mp hxf with ⟨t, htm2, hid⟩
                  have htm : t ∈ s.tasks := (List.mem_filter.mp htm2).1
                  have htc : t.completed = false := by
                    rcases hcb : t.completed with _ | _
                    · rfl
                    · exact absurd
                        (⟨hnenil, List.any_eq_true.mpr ⟨t, htm2, hcb⟩⟩ :
                          dedupFirst l ≠ [] ∧ ((s.tasks.filter (fun t0 =>
                            (dedupFirst l).contains t0.id)).any
                            (fun t0 => t0.completed)) = true) hcomp
                  exact ⟨t, htm, hid, htc⟩
                exact inv_putUserCascade s uid b user (dedupFirst l) hinv hfu hnp hex

/-- Claim C1: after any single documented mutating operation (user
create/update/delete, task create/update/delete) completes successfully
starting from a store satisfying the invariants (with the
store-generated id of a create fresh and non-empty), the store again
satisfies the invariants, and in particular every not-completed task
with a non-empty assignee appears in the assignee's pendingTasks
exactly once, and no pendingTasks list holds the id of a completed or
unassigned task. -/
theorem C1_mutations_preserve_invariant (s : Store) (op : Op)
    (hinv : StoreInv s) (hfresh : freshOk s op)
    (hok : (applyOp s op).1.status < 400) :
    StoreInv (applyOp s op).2 ∧ PendingExactly (applyOp s op).2 := by
  have hinv2 : StoreInv (applyOp s op).2 := by
    cases op with
    | userCreate b newId => exact inv_postUser s b newId hinv hfresh.1 hfresh.2
    | userUpdate uid b => exact inv_putUser s uid b hinv
    | userDelete uid => exact inv_deleteUser s uid hinv
    | taskCreate b newId => exact inv_postTask s b newId hinv hfresh.1 hfresh.2
    | taskUpdate tid b => exact inv_putTask s tid b hinv
    | taskDelete tid => exact inv_deleteTask s tid hinv
  exact ⟨hinv2, pendingExactly_of_inv hinv2⟩

theorem C1_mutations_preserve_invariant_witness :
    StoreInv ⟨[], []⟩
    ∧ freshOk ⟨[], []⟩ (Op.userCreate ⟨"alice", "a@b.c", PendingField.absent⟩ "u1")
    ∧ (applyOp ⟨[], []⟩ (Op.userCreate ⟨"alice", "a@b.c", PendingField.absent⟩ "u1")).1.status
      < 400
    ∧ (StoreInv (applyOp ⟨[], []⟩
        (Op.userCreate ⟨"alice", "a@b.c", PendingField.absent⟩ "u1")).2
      ∧ PendingExactly (applyOp ⟨[], []⟩
        (Op.userCreate ⟨"alice", "a@b.c", PendingField.absent⟩ "u1")).2) :=
  ⟨by unfold StoreInv; decide, by decide, by decide,
    C1_mutations_preserve_invariant _ _ (by unfold StoreInv; decide) (by decide) (by decide)⟩
